import Mathlib

/-!
Verification of the room-lifecycle core of `draught-pro-fastapi`.

The Python source (`app/services/room_manager.py`, `app/websockets/game_handler.py`,
`app/models/game.py`, `app/core/config.py`) is embedded shallowly:

* pydantic models become Lean structures;
* `datetime.utcnow()` reads become an explicit `now : Nat` parameter (seconds);
* the two dictionaries `rooms` and `player_to_room` become association lists
  with CPython `dict` semantics (in-place replacement on existing keys,
  append on new keys, deletion of the unique entry);
* `raise ValueError(msg)` becomes `Except.error msg`;
* CPython's RuntimeError on a dict that changes size while being iterated
  (relevant inside `cleanup_inactive_rooms`, which calls `remove_player`
  while iterating `self.rooms.items()`) is modelled by a size check before
  every step of the iteration, returning `none` for the swept count when the
  iteration would raise; the mutations already applied persist, as they do
  in Python.
-/

namespace DraughtsPro

/-- `PieceColor` from `app/models/game.py`. -/
inductive PieceColor
  | dark
  | light
  deriving DecidableEq, Repr

/-- `GameVariant` from `app/models/game.py`. -/
inductive GameVariant
  | international
  | nigerian
  | american
  deriving DecidableEq, Repr

/-- `GameStatus` from `app/models/game.py`. -/
inductive GameStatus
  | waiting
  | playing
  | finished
  deriving DecidableEq, Repr

/-- `Piece` from `app/models/game.py`. -/
structure Piece where
  color : PieceColor
  isKing : Bool
  deriving DecidableEq, Repr

/-- The opaque board payload: `list[list[Optional[Piece]]]`. -/
abbrev Board := List (List (Option Piece))

/-- `Player` from `app/models/game.py`, with its pydantic defaults. -/
structure Player where
  id : String
  name : String
  color : PieceColor
  isReady : Bool := false
  isConnected : Bool := true
  disconnectedAt : Option Nat := none
  deriving DecidableEq, Repr

/-- `GameRoom` from `app/models/game.py`, with its pydantic defaults. -/
structure GameRoom where
  id : String
  players : List Player := []
  board : Option Board := none
  currentTurn : PieceColor := PieceColor.light
  status : GameStatus := GameStatus.waiting
  variant : GameVariant
  createdAt : Nat
  lastActivityAt : Nat
  winner : Option PieceColor := none
  deriving DecidableEq, Repr

/-- `settings.MAX_ROOMS` from `app/core/config.py`. -/
def MAX_ROOMS : Nat := 1000

/-- `settings.INACTIVE_ROOM_TIMEOUT_SECONDS` from `app/core/config.py`. -/
def INACTIVE_ROOM_TIMEOUT_SECONDS : Nat := 7200

/-- The fixed 60-second disconnect grace period hard-coded in
`RoomManager.cleanup_inactive_rooms`. -/
def DISCONNECT_GRACE_SECONDS : Nat := 60

/-! ### Association lists with CPython `dict` semantics -/

/-- `d[k]` / `d.get(k)`: first entry with the given key. -/
def alLookup (k : String) : List (String × α) → Option α
  | [] => none
  | e :: rest => if e.1 = k then some e.2 else alLookup k rest

/-- `d[k] = v`: replace the entry in place when the key is present,
append otherwise. -/
def alInsert (k : String) (v : α) : List (String × α) → List (String × α)
  | [] => [(k, v)]
  | e :: rest => if e.1 = k then (k, v) :: rest else e :: alInsert k v rest

/-- `d.pop(k, None)`: drop the first entry with the given key. -/
def alErase (k : String) : List (String × α) → List (String × α)
  | [] => []
  | e :: rest => if e.1 = k then rest else e :: alErase k rest

/-! ### Helpers over player lists -/

/-- `next((p for p in players if p.id == pid), None)`. -/
def findPlayer (pid : String) : List Player → Option Player
  | [] => none
  | p :: rest => if p.id = pid then some p else findPlayer pid rest

/-- In-place mutation of the player found by `findPlayer`: apply `f` to the
first player with the given id. -/
def updateFirstPlayer (pid : String) (f : Player → Player) : List Player → List Player
  | [] => []
  | p :: rest => if p.id = pid then f p :: rest else p :: updateFirstPlayer pid f rest

/-! ### The manager state and operations (`app/services/room_manager.py`) -/

/-- The `RoomManager` instance state: `self.rooms` and `self.player_to_room`. -/
structure RoomManager where
  rooms : List (String × GameRoom)
  player_to_room : List (String × String)
  deriving DecidableEq, Repr

/-- `RoomManager()`. -/
def initManager : RoomManager := { rooms := [], player_to_room := [] }

/-- `RoomManager.create_room`.  The generated room id is passed in explicitly;
`generate_room_id` below models `_generate_room_id`, whose postcondition
(proved below) is that the id is fresh. -/
def create_room (s : RoomManager) (room_id player_id player_name : String)
    (variant : GameVariant) (now : Nat) : Except String (RoomManager × GameRoom) :=
  if MAX_ROOMS ≤ s.rooms.length then .error "Maximum room limit reached"
  else
    let player : Player := { id := player_id, name := player_name, color := PieceColor.light }
    let room : GameRoom :=
      { id := room_id, players := [player], variant := variant,
        createdAt := now, lastActivityAt := now }
    .ok ({ rooms := alInsert room_id room s.rooms,
           player_to_room := alInsert player_id room_id s.player_to_room }, room)

/-- `RoomManager.join_room`. -/
def join_room (s : RoomManager) (room_id player_id player_name : String)
    (now : Nat) : Except String (RoomManager × GameRoom) :=
  match alLookup room_id s.rooms with
  | none => .error "Room not found"
  | some room =>
    match findPlayer player_id room.players with
    | some _ =>
      let room' := { room with
        players := updateFirstPlayer player_id
          (fun p => { p with isConnected := true, disconnectedAt := none,
                             name := player_name }) room.players,
        lastActivityAt := now }
      .ok ({ s with rooms := alInsert room_id room' s.rooms }, room')
    | none =>
      if room.status = GameStatus.finished then .error "Game has ended"
      else if room.status ≠ GameStatus.waiting then .error "Game already started"
      else if 2 ≤ room.players.length then .error "Room is full"
      else
        let player : Player :=
          { id := player_id, name := player_name, color := PieceColor.dark,
            isConnected := true }
        let room' := { room with players := room.players ++ [player],
                                 lastActivityAt := now }
        .ok ({ rooms := alInsert room_id room' s.rooms,
               player_to_room := alInsert player_id room_id s.player_to_room }, room')

/-- `RoomManager.get_room` (bumps `lastActivityAt` when the room exists). -/
def get_room (s : RoomManager) (room_id : String) (now : Nat) :
    RoomManager × Option GameRoom :=
  match alLookup room_id s.rooms with
  | none => (s, none)
  | some room =>
    let room' := { room with lastActivityAt := now }
    ({ s with rooms := alInsert room_id room' s.rooms }, some room')

/-- `RoomManager.set_player_ready`. -/
def set_player_ready (s : RoomManager) (room_id player_id : String) (ready : Bool)
    (now : Nat) : RoomManager × Bool :=
  match alLookup room_id s.rooms with
  | none => (s, false)
  | some room =>
    match findPlayer player_id room.players with
    | none => (s, false)
    | some _ =>
      let room' := { room with
        players := updateFirstPlayer player_id (fun p => { p with isReady := ready })
          room.players,
        lastActivityAt := now }
      ({ s with rooms := alInsert room_id room' s.rooms }, true)

/-- `RoomManager.can_start_game`. -/
def can_start_game (s : RoomManager) (room_id : String) : Bool :=
  match alLookup room_id s.rooms with
  | none => false
  | some room => room.players.length == 2 && room.players.all (fun p => p.isReady)

/-- `RoomManager.start_game`. -/
def start_game (s : RoomManager) (room_id : String) (now : Nat) : RoomManager × Bool :=
  if can_start_game s room_id then
    match alLookup room_id s.rooms with
    | none => (s, false)
    | some room =>
      let room' := { room with status := GameStatus.playing, lastActivityAt := now }
      ({ s with rooms := alInsert room_id room' s.rooms }, true)
  else (s, false)

/-- `RoomManager.update_game_state`. -/
def update_game_state (s : RoomManager) (room_id : String) (board : Board)
    (current_turn : PieceColor) (now : Nat) : RoomManager × Bool :=
  match alLookup room_id s.rooms with
  | none => (s, false)
  | some room =>
    if room.status ≠ GameStatus.playing then (s, false)
    else
      let room' := { room with board := some board, currentTurn := current_turn,
                               lastActivityAt := now }
      ({ s with rooms := alInsert room_id room' s.rooms }, true)

/-- `RoomManager.end_game`. -/
def end_game (s : RoomManager) (room_id : String) (winner : Option PieceColor)
    (now : Nat) : RoomManager × Bool :=
  match alLookup room_id s.rooms with
  | none => (s, false)
  | some room =>
    let room' := { room with status := GameStatus.finished, winner := winner,
                             lastActivityAt := now }
    ({ s with rooms := alInsert room_id room' s.rooms }, true)

/-- `RoomManager.remove_player`. -/
def remove_player (s : RoomManager) (room_id player_id : String) (now : Nat) :
    RoomManager × Option GameRoom :=
  match alLookup room_id s.rooms with
  | none => (s, none)
  | some room =>
    let newPlayers := room.players.filter (fun p => p.id ≠ player_id)
    if newPlayers.length = 0 then
      ({ rooms := alErase room_id s.rooms,
         player_to_room := alErase player_id s.player_to_room }, none)
    else
      let room' := { room with players := newPlayers, lastActivityAt := now }
      ({ rooms := alInsert room_id room' s.rooms,
         player_to_room := alErase player_id s.player_to_room }, some room')

/-- `RoomManager.get_player_room`. -/
def get_player_room (s : RoomManager) (player_id : String) : Option String :=
  alLookup player_id s.player_to_room

/-- `RoomManager.handle_disconnect`. -/
def handle_disconnect (s : RoomManager) (player_id : String) (now : Nat) :
    RoomManager × Option GameRoom :=
  match alLookup player_id s.player_to_room with
  | none => (s, none)
  | some room_id =>
    match alLookup room_id s.rooms with
    | none => (s, none)
    | some room =>
      match findPlayer player_id room.players with
      | none => (s, some room)
      | some _ =>
        let room' := { room with
          players := updateFirstPlayer player_id
            (fun p => { p with isConnected := false, disconnectedAt := some now })
            room.players,
          lastActivityAt := now }
        ({ s with rooms := alInsert room_id room' s.rooms }, some room')

/-! ### The janitor sweep (`RoomManager.cleanup_inactive_rooms`)

The Python method iterates `self.rooms.items()` and calls `remove_player`
inside the loop; when a removal empties a room, `remove_player` pops it from
`self.rooms`, and the next step of the loop raises
`RuntimeError: dictionary changed size during iteration` (CPython checks the
dict's size at every step of a dict iterator, including the terminating one).
`sweepLoop` models this: it checks the size before consuming each snapshot
entry and before terminating, and returns `none` in place of the list of
rooms to delete when the check fails.  Mutations applied before the failure
persist, as they do in Python. -/

/-- The stale-player predicate from the sweep:
`not p.isConnected and p.disconnectedAt and (now - p.disconnectedAt > disconnect_timeout)`. -/
def staleAt (now : Nat) (p : Player) : Bool :=
  !p.isConnected &&
    match p.disconnectedAt with
    | none => false
    | some t => t + DISCONNECT_GRACE_SECONDS < now

/-- The inner loop `for player in disconnected_players: self.remove_player(...)`. -/
def removeStale (room_id : String) (now : Nat) : List Player → RoomManager → RoomManager
  | [], s => s
  | p :: rest, s => removeStale room_id now rest (remove_player s room_id p.id now).1

/-- One iteration of the sweep's `for room_id, room in self.rooms.items():`
body, acting on the snapshot entry `(rid, room)`. -/
def sweepStep (now : Nat) (rid : String) (room : GameRoom) (s : RoomManager)
    (dels : List String) : RoomManager × List String :=
  if room.lastActivityAt + INACTIVE_ROOM_TIMEOUT_SECONDS < now then
    (s, dels ++ [rid])
  else
    let s' := removeStale rid now (room.players.filter (staleAt now)) s
    let nowEmpty :=
      match alLookup rid s'.rooms with
      | some r => r.players.isEmpty
      | none => true
    (s', if nowEmpty then dels ++ [rid] else dels)

/-- The sweep's main loop over the snapshot of `self.rooms.items()`, with the
CPython size check at every iterator step. -/
def sweepLoop (now initSize : Nat) :
    List (String × GameRoom) → RoomManager → List String →
      RoomManager × Option (List String)
  | [], s, dels =>
    if s.rooms.length = initSize then (s, some dels) else (s, none)
  | (rid, room) :: rest, s, dels =>
    if s.rooms.length = initSize then
      let sd := sweepStep now rid room s dels
      sweepLoop now initSize rest sd.1 sd.2
    else (s, none)

/-- The final `for room_id in list(set(rooms_to_delete)):` loop: pop the room
and every seated player's reverse-index entry. -/
def deleteRooms : List String → RoomManager → RoomManager
  | [], s => s
  | rid :: rest, s =>
    match alLookup rid s.rooms with
    | none => deleteRooms rest s
    | some room =>
      deleteRooms rest
        { rooms := alErase rid s.rooms,
          player_to_room := room.players.foldl (fun m p => alErase p.id m) s.player_to_room }

/-- `RoomManager.cleanup_inactive_rooms`.  Returns the mutated state together
with `some count` on normal completion, or `none` when the iteration raises
`RuntimeError` (the partially swept state persists in that case). -/
def cleanup_inactive_rooms (s : RoomManager) (now : Nat) : RoomManager × Option Nat :=
  match sweepLoop now s.rooms.length s.rooms s [] with
  | (s', none) => (s', none)
  | (s', some dels) => (deleteRooms dels s', some dels.length)

/-! ### Room identifier generation (`RoomManager._generate_room_id`) -/

/-- The alphabet built in `_generate_room_id`:
`string.ascii_uppercase + string.digits` with `O`, `0`, `I` and `1` removed. -/
def roomIdChars : List Char :=
  "ABCDEFGHIJKLMNOPQRSTUVWXYZ0123456789".toList.filter
    (fun c => c ∉ (['O', '0', 'I', '1'] : List Char))

/-- `secrets.choice(chars)`: the random source is modelled as an arbitrary
stream of naturals, reduced mod the alphabet size. -/
def choiceChar (r : Nat) : Char := roomIdChars.getD (r % roomIdChars.length) 'A'

/-- One candidate `"".join(secrets.choice(chars) for _ in range(6))`,
drawing the six choices for attempt number `attempt` from the stream. -/
def mkRoomId (rand : Nat → Nat) (attempt : Nat) : String :=
  String.mk ((List.range 6).map (fun i => choiceChar (rand (attempt * 6 + i))))

/-- The `while True:` retry loop of `_generate_room_id`, with fuel (the Python
loop has no bound; `none` means the fuel ran out before a fresh id appeared). -/
def genLoop (s : RoomManager) (rand : Nat → Nat) (attempt : Nat) : Nat → Option String
  | 0 => none
  | fuel + 1 =>
    let rid := mkRoomId rand attempt
    if (alLookup rid s.rooms).isSome then genLoop s rand (attempt + 1) fuel
    else some rid

/-- `RoomManager._generate_room_id`. -/
def generate_room_id (s : RoomManager) (rand : Nat → Nat) (fuel : Nat) : Option String :=
  genLoop s rand 0 fuel

/-! ### The session gateway (`app/websockets/game_handler.py`) -/

/-- The reply of the `makeMove` handler: `{"success": True}` or
`{"success": False, "error": msg}`. -/
inductive MoveReply
  | ok
  | err (msg : String)
  deriving DecidableEq, Repr

/-- The `makeMove` socket handler on an already-decoded request.  Note that
the handler ignores the boolean returned by `update_game_state` and replies
success either way. -/
def makeMove (s : RoomManager) (roomId playerId : String) (newBoard : Board)
    (nextTurn : PieceColor) (now : Nat) : RoomManager × MoveReply :=
  let sr := get_room s roomId now
  match sr.2 with
  | none => (sr.1, .err "Room not found")
  | some room =>
    match findPlayer playerId room.players with
    | none => (sr.1, .err "Not your turn")
    | some player =>
      if player.color ≠ room.currentTurn then (sr.1, .err "Not your turn")
      else ((update_game_state sr.1 roomId newBoard nextTurn now).1, .ok)

/-- `PieceColor.LIGHT if player.color == PieceColor.DARK else PieceColor.DARK`. -/
def opponentColor (c : PieceColor) : PieceColor :=
  if c = PieceColor.dark then PieceColor.light else PieceColor.dark

/-- The `disconnect` socket handler, given the `(room_id, player_id)` pair the
`sid_map` holds for the dropped connection. -/
def gatewayDisconnect (s : RoomManager) (roomId playerId : String) (now : Nat) :
    RoomManager :=
  let sr := get_room s roomId now
  let s1 :=
    match sr.2 with
    | some room =>
      if room.status = GameStatus.playing then
        match findPlayer playerId room.players with
        | some player => (end_game sr.1 roomId (some (opponentColor player.color)) now).1
        | none => sr.1
      else sr.1
    | none => sr.1
  (handle_disconnect s1 playerId now).1

/-! ### Operation sequences over the manager -/

/-- One invocation of a lifecycle operation.  `create` carries the room id the
generator produced for it; `sweep` is one janitor pass. -/
inductive Op
  | create (rid pid pname : String) (v : GameVariant) (now : Nat)
  | join (rid pid pname : String) (now : Nat)
  | ready (rid pid : String) (r : Bool) (now : Nat)
  | start (rid : String) (now : Nat)
  | move (rid : String) (b : Board) (t : PieceColor) (now : Nat)
  | finish (rid : String) (w : Option PieceColor) (now : Nat)
  | removeP (rid pid : String) (now : Nat)
  | disc (pid : String) (now : Nat)
  | sweep (now : Nat)
  deriving DecidableEq, Repr

/-- The state after one operation.  A raised `ValueError` leaves the state
unchanged (both `create_room` and `join_room` raise before mutating).  For
`create` the freshness of the generated id (`generate_room_id`'s proved
postcondition) is modelled by the guard: the generator never returns an id
of a live room. -/
def applyOp (s : RoomManager) : Op → RoomManager
  | .create rid pid pname v now =>
    if alLookup rid s.rooms = none then
      match create_room s rid pid pname v now with
      | .ok (s', _) => s'
      | .error _ => s
    else s
  | .join rid pid pname now =>
    match join_room s rid pid pname now with
    | .ok (s', _) => s'
    | .error _ => s
  | .ready rid pid r now => (set_player_ready s rid pid r now).1
  | .start rid now => (start_game s rid now).1
  | .move rid b t now => (update_game_state s rid b t now).1
  | .finish rid w now => (end_game s rid w now).1
  | .removeP rid pid now => (remove_player s rid pid now).1
  | .disc pid now => (handle_disconnect s pid now).1
  | .sweep now => (cleanup_inactive_rooms s now).1

/-- Run a sequence of operations from a state. -/
def runOps (s : RoomManager) : List Op → RoomManager
  | [] => s
  | op :: rest => runOps (applyOp s op) rest

/-! ### Seating predicates -/

/-- `pid` occupies a seat in the live room `rid`. -/
def seatedInB (s : RoomManager) (pid rid : String) : Bool :=
  match alLookup rid s.rooms with
  | some room => (findPlayer pid room.players).isSome
  | none => false

/-- `pid` occupies a seat in some live room. -/
def seatedAnywhereB (s : RoomManager) (pid : String) : Bool :=
  s.rooms.any (fun e => (findPlayer pid e.2.players).isSome)

/-- `pid` occupies no seat in any live room other than `rid`. -/
def notSeatedOutsideB (s : RoomManager) (pid rid : String) : Bool :=
  s.rooms.all (fun e => e.1 == rid || (findPlayer pid e.2.players).isNone)

/-! ### Lemmas on the association-list operations -/

theorem nodup_keys_cons {α : Type} {e : String × α} {rest : List (String × α)}
    (h : ((e :: rest).map Prod.fst).Nodup) :
    e.1 ∉ rest.map Prod.fst ∧ (rest.map Prod.fst).Nodup := by
  rw [List.map_cons] at h
  exact List.nodup_cons.mp h

theorem alLookup_eq_none_iff {α : Type} (k : String) :
    ∀ l : List (String × α), alLookup k l = none ↔ k ∉ l.map Prod.fst := by
  intro l
  induction l with
  | nil => simp [alLookup]
  | cons e rest ih =>
    simp only [alLookup, List.map_cons, List.mem_cons]
    by_cases h : e.1 = k
    · subst h
      simp
    · have h' : ¬ k = e.1 := fun hh => h hh.symm
      simp [h, h', ih]

theorem mem_of_alLookup {α : Type} {k : String} {v : α} :
    ∀ {l : List (String × α)}, alLookup k l = some v → (k, v) ∈ l := by
  intro l
  induction l with
  | nil => intro h; simp [alLookup] at h
  | cons e rest ih =>
    obtain ⟨e1, e2⟩ := e
    intro h
    simp only [alLookup] at h
    by_cases he : e1 = k
    · rw [if_pos he] at h
      injection h with h2
      subst he
      subst h2
      exact List.mem_cons_self _ _
    · rw [if_neg he] at h
      exact List.mem_cons_of_mem _ (ih h)

theorem alLookup_isSome_iff {α : Type} (k : String) (l : List (String × α)) :
    (alLookup k l).isSome ↔ k ∈ l.map Prod.fst := by
  rcases h : alLookup k l with _ | v
  · simpa using (alLookup_eq_none_iff k l).mp h
  · simp only [Option.isSome_some, true_iff]
    exact List.mem_map.mpr ⟨(k, v), mem_of_alLookup h, rfl⟩

theorem alLookup_of_mem_nodup {α : Type} {k : String} {v : α} :
    ∀ {l : List (String × α)}, (l.map Prod.fst).Nodup → (k, v) ∈ l →
      alLookup k l = some v := by
  intro l
  induction l with
  | nil => intro _ h; simp at h
  | cons e rest ih =>
    intro hnd hm
    obtain ⟨h1, h2⟩ := nodup_keys_cons hnd
    rcases List.mem_cons.mp hm with he | hr
    · subst he
      simp [alLookup]
    · have hk : k ∈ rest.map Prod.fst := List.mem_map.mpr ⟨(k, v), hr, rfl⟩
      have hne : e.1 ≠ k := fun h => h1 (h ▸ hk)
      simp only [alLookup, if_neg hne]
      exact ih h2 hr

theorem alLookup_alInsert_self {α : Type} (k : String) (v : α) :
    ∀ l : List (String × α), alLookup k (alInsert k v l) = some v := by
  intro l
  induction l with
  | nil => simp [alInsert, alLookup]
  | cons e rest ih =>
    by_cases h : e.1 = k <;> simp [alInsert, alLookup, h, ih]

theorem alLookup_alInsert_ne {α : Type} {k k' : String} (v : α) (h : k' ≠ k) :
    ∀ l : List (String × α), alLookup k' (alInsert k v l) = alLookup k' l := by
  intro l
  induction l with
  | nil => simp [alInsert, alLookup, Ne.symm h]
  | cons e rest ih =>
    by_cases he : e.1 = k
    · simp [alInsert, alLookup, he, Ne.symm h, ih]
    · simp [alInsert, alLookup, he, ih]

theorem alLookup_alErase_ne {α : Type} {k k' : String} (h : k' ≠ k) :
    ∀ l : List (String × α), alLookup k' (alErase k l) = alLookup k' l := by
  intro l
  induction l with
  | nil => simp [alErase]
  | cons e rest ih =>
    by_cases he : e.1 = k
    · simp [alErase, alLookup, he, Ne.symm h]
    · simp [alErase, alLookup, he, ih]

theorem alLookup_alErase_self {α : Type} {k : String} :
    ∀ {l : List (String × α)}, (l.map Prod.fst).Nodup →
      alLookup k (alErase k l) = none := by
  intro l
  induction l with
  | nil => intro _; simp [alErase, alLookup]
  | cons e rest ih =>
    intro hnd
    obtain ⟨h1, h2⟩ := nodup_keys_cons hnd
    by_cases he : e.1 = k
    · simp only [alErase, if_pos he]
      rw [alLookup_eq_none_iff]
      exact he ▸ h1
    · simp only [alErase, if_neg he, alLookup, ih h2]

theorem alLookup_alErase_none {α : Type} {k k' : String} :
    ∀ {l : List (String × α)}, alLookup k' l = none →
      alLookup k' (alErase k l) = none := by
  intro l
  induction l with
  | nil => intro _; simp [alErase, alLookup]
  | cons e rest ih =>
    intro h
    by_cases hk : e.1 = k'
    · simp [alLookup, hk] at h
    · simp only [alLookup, if_neg hk] at h
      by_cases he : e.1 = k
      · simp only [alErase, if_pos he]
        exact h
      · simp only [alErase, if_neg he, alLookup, if_neg hk]
        exact ih h

theorem keys_alInsert_of_mem {α : Type} {k : String} (v : α) :
    ∀ {l : List (String × α)}, k ∈ l.map Prod.fst →
      (alInsert k v l).map Prod.fst = l.map Prod.fst := by
  intro l
  induction l with
  | nil => intro h; simp at h
  | cons e rest ih =>
    intro h
    by_cases he : e.1 = k
    · simp [alInsert, he]
    · have hk : k ∈ rest.map Prod.fst := by
        rw [List.map_cons] at h
        rcases List.mem_cons.mp h with h1 | h2
        · exact (he h1.symm).elim
        · exact h2
      simp [alInsert, he, ih hk]

theorem keys_alInsert_of_not_mem {α : Type} {k : String} (v : α) :
    ∀ {l : List (String × α)}, k ∉ l.map Prod.fst →
      (alInsert k v l).map Prod.fst = l.map Prod.fst ++ [k] := by
  intro l
  induction l with
  | nil => intro _; simp [alInsert]
  | cons e rest ih =>
    intro h
    have he : e.1 ≠ k := fun hk => h (by simp [hk])
    have hr : k ∉ rest.map Prod.fst := fun hk => h (by simp [hk])
    simp [alInsert, he, ih hr]

theorem nodup_keys_alInsert {α : Type} {k : String} (v : α)
    {l : List (String × α)} (h : (l.map Prod.fst).Nodup) :
    ((alInsert k v l).map Prod.fst).Nodup := by
  by_cases hk : k ∈ l.map Prod.fst
  · rw [keys_alInsert_of_mem v hk]
    exact h
  · rw [keys_alInsert_of_not_mem v hk, List.nodup_append]
    refine ⟨h, List.nodup_singleton k, ?_⟩
    intro a ha hb
    simp only [List.mem_singleton] at hb
    exact hk (hb ▸ ha)

theorem keys_alErase_subset {α : Type} {k k' : String} :
    ∀ {l : List (String × α)}, k' ∈ (alErase k l).map Prod.fst →
      k' ∈ l.map Prod.fst := by
  intro l
  induction l with
  | nil => intro h; simp [alErase] at h
  | cons e rest ih =>
    intro h
    by_cases he : e.1 = k
    · simp only [alErase, if_pos he] at h
      simp [h]
    · simp only [alErase, if_neg he, List.map_cons, List.mem_cons] at h
      rcases h with h1 | h2
      · simp [h1]
      · simp only [List.map_cons, List.mem_cons]
        exact Or.inr (ih h2)

theorem nodup_keys_alErase {α : Type} (k : String) :
    ∀ {l : List (String × α)}, (l.map Prod.fst).Nodup →
      ((alErase k l).map Prod.fst).Nodup := by
  intro l
  induction l with
  | nil => intro _; simp [alErase]
  | cons e rest ih =>
    intro hnd
    obtain ⟨h1, h2⟩ := nodup_keys_cons hnd
    by_cases he : e.1 = k
    · simp only [alErase, if_pos he]
      exact h2
    · simp only [alErase, if_neg he, List.map_cons]
      exact List.nodup_cons.mpr ⟨fun hx => h1 (keys_alErase_subset hx), ih h2⟩

/-! ### Lemmas on player-list helpers -/

theorem findPlayer_eq_none_iff (pid : String) :
    ∀ ps : List Player, findPlayer pid ps = none ↔ pid ∉ ps.map Player.id := by
  intro ps
  induction ps with
  | nil => simp [findPlayer]
  | cons p rest ih =>
    simp only [findPlayer, List.map_cons, List.mem_cons]
    by_cases h : p.id = pid
    · subst h
      simp
    · have h' : ¬ pid = p.id := fun hh => h hh.symm
      simp [h, h', ih]

theorem findPlayer_some {pid : String} {p : Player} :
    ∀ {ps : List Player}, findPlayer pid ps = some p → p ∈ ps ∧ p.id = pid := by
  intro ps
  induction ps with
  | nil => intro h; simp [findPlayer] at h
  | cons q rest ih =>
    intro h
    simp only [findPlayer] at h
    by_cases hq : q.id = pid
    · rw [if_pos hq] at h
      injection h with h2
      subst h2
      exact ⟨List.mem_cons_self _ _, hq⟩
    · rw [if_neg hq] at h
      obtain ⟨h1, h2⟩ := ih h
      exact ⟨List.mem_cons_of_mem _ h1, h2⟩

theorem findPlayer_isSome_iff (pid : String) (ps : List Player) :
    (findPlayer pid ps).isSome ↔ pid ∈ ps.map Player.id := by
  rcases h : findPlayer pid ps with _ | p
  · simpa using (findPlayer_eq_none_iff pid ps).mp h
  · simp only [Option.isSome_some, true_iff]
    obtain ⟨h1, h2⟩ := findPlayer_some h
    exact List.mem_map.mpr ⟨p, h1, h2⟩

theorem map_id_updateFirstPlayer (pid : String) (f : Player → Player)
    (hf : ∀ q, (f q).id = q.id) :
    ∀ ps : List Player,
      (updateFirstPlayer pid f ps).map Player.id = ps.map Player.id := by
  intro ps
  induction ps with
  | nil => simp [updateFirstPlayer]
  | cons p rest ih =>
    by_cases h : p.id = pid
    · simp [updateFirstPlayer, h, hf]
    · simp [updateFirstPlayer, h, ih]

theorem length_updateFirstPlayer (pid : String) (f : Player → Player) :
    ∀ ps : List Player, (updateFirstPlayer pid f ps).length = ps.length := by
  intro ps
  induction ps with
  | nil => simp [updateFirstPlayer]
  | cons p rest ih =>
    by_cases h : p.id = pid
    · simp [updateFirstPlayer, h]
    · simp [updateFirstPlayer, h, ih]

theorem findPlayer_updateFirstPlayer_self (pid : String) (f : Player → Player)
    (hf : ∀ q, (f q).id = q.id) :
    ∀ ps : List Player,
      findPlayer pid (updateFirstPlayer pid f ps) = (findPlayer pid ps).map f := by
  intro ps
  induction ps with
  | nil => simp [updateFirstPlayer, findPlayer]
  | cons p rest ih =>
    by_cases h : p.id = pid
    · simp [updateFirstPlayer, findPlayer, h, hf]
    · simp [updateFirstPlayer, findPlayer, h, ih]

theorem findPlayer_updateFirstPlayer_ne (pid pid' : String) (f : Player → Player)
    (hf : ∀ q, (f q).id = q.id) (hne : pid' ≠ pid) :
    ∀ ps : List Player,
      findPlayer pid' (updateFirstPlayer pid f ps) = findPlayer pid' ps := by
  intro ps
  induction ps with
  | nil => simp [updateFirstPlayer]
  | cons p rest ih =>
    by_cases h : p.id = pid
    · simp [updateFirstPlayer, findPlayer, h, hf, Ne.symm hne]
    · simp [updateFirstPlayer, findPlayer, h, ih]

theorem mem_map_id_filter_ne {pid q : String} (ps : List Player) :
    q ∈ (ps.filter (fun p => p.id ≠ pid)).map Player.id ↔
      q ∈ ps.map Player.id ∧ q ≠ pid := by
  constructor
  · intro h
    obtain ⟨p, hp, hq⟩ := List.mem_map.mp h
    obtain ⟨hps, hfil⟩ := List.mem_filter.mp hp
    subst hq
    exact ⟨List.mem_map.mpr ⟨p, hps, rfl⟩, by simpa using hfil⟩
  · rintro ⟨h1, h2⟩
    obtain ⟨p, hp, hq⟩ := List.mem_map.mp h1
    subst hq
    exact List.mem_map.mpr ⟨p, List.mem_filter.mpr ⟨hp, by simpa using h2⟩, rfl⟩

theorem findPlayer_filter_self (pid : String) (ps : List Player) :
    findPlayer pid (ps.filter (fun p => p.id ≠ pid)) = none := by
  rw [findPlayer_eq_none_iff]
  intro h
  exact ((mem_map_id_filter_ne ps).mp h).2 rfl

theorem nodup_map_id_filter (f : Player → Bool) {ps : List Player}
    (h : (ps.map Player.id).Nodup) : ((ps.filter f).map Player.id).Nodup :=
  ((List.filter_sublist ps).map Player.id).nodup h

/-! ### The consistency invariant -/

/-- The consistency invariant on the manager state: both dictionaries have
unique keys (dicts), every live room holds at most two seats with distinct
player ids, and the reverse index holds `pid ↦ rid` exactly when room `rid`
is live and `pid` occupies one of its seats. -/
def Inv (s : RoomManager) : Prop :=
  (s.rooms.map Prod.fst).Nodup ∧
  (s.player_to_room.map Prod.fst).Nodup ∧
  (∀ rid room, alLookup rid s.rooms = some room →
    room.players.length ≤ 2 ∧ (room.players.map Player.id).Nodup) ∧
  (∀ pid rid, alLookup pid s.player_to_room = some rid ↔
    ∃ room, alLookup rid s.rooms = some room ∧
      (findPlayer pid room.players).isSome = true)

/-! ### C9: the room-id generator -/

theorem roomIdChars_eq :
    roomIdChars = "ABCDEFGHJKLMNPQRSTUVWXYZ23456789".toList := by decide

theorem choiceChar_mem (r : Nat) : choiceChar r ∈ roomIdChars := by
  have hlen : roomIdChars.length = 32 := by decide
  have hlt : r % roomIdChars.length < roomIdChars.length := by
    rw [hlen]
    exact Nat.mod_lt _ (by norm_num)
  rw [choiceChar, List.getD_eq_getElem _ _ hlt]
  exact List.getElem_mem _

theorem mkRoomId_length (rand : Nat → Nat) (attempt : Nat) :
    (mkRoomId rand attempt).length = 6 := by
  simp [mkRoomId, String.length]

theorem mkRoomId_chars (rand : Nat → Nat) (attempt : Nat) :
    ∀ c ∈ (mkRoomId rand attempt).data, c ∈ roomIdChars := by
  intro c hc
  simp only [mkRoomId, String.mk] at hc
  obtain ⟨i, _, hi⟩ := List.mem_map.mp hc
  exact hi ▸ choiceChar_mem _

theorem genLoop_spec (s : RoomManager) (rand : Nat → Nat) :
    ∀ fuel attempt rid, genLoop s rand attempt fuel = some rid →
      (∃ a, rid = mkRoomId rand a) ∧ alLookup rid s.rooms = none := by
  intro fuel
  induction fuel with
  | zero => intro attempt rid h; simp [genLoop] at h
  | succ n ih =>
    intro attempt rid h
    simp only [genLoop] at h
    by_cases hc : (alLookup (mkRoomId rand attempt) s.rooms).isSome
    · rw [if_pos hc] at h
      exact ih _ _ h
    · rw [if_neg hc] at h
      injection h with h2
      subst h2
      exact ⟨⟨attempt, rfl⟩, Option.not_isSome_iff_eq_none.mp hc⟩

/-- C9: every id returned by `_generate_room_id` is six characters long, all
of its characters come from the 32-symbol alphabet (uppercase letters and
digits minus `O`, `0`, `I`, `1`), and it does not collide with any live room
identifier. -/
theorem generate_room_id_spec (s : RoomManager) (rand : Nat → Nat) (fuel : Nat)
    (rid : String) (h : generate_room_id s rand fuel = some rid) :
    rid.length = 6 ∧ (∀ c ∈ rid.data, c ∈ roomIdChars) ∧
      roomIdChars = "ABCDEFGHJKLMNPQRSTUVWXYZ23456789".toList ∧
      alLookup rid s.rooms = none := by
  obtain ⟨⟨a, ha⟩, hfresh⟩ := genLoop_spec s rand fuel 0 rid h
  subst ha
  exact ⟨mkRoomId_length rand a, mkRoomId_chars rand a, roomIdChars_eq, hfresh⟩

/-- Witness for `generate_room_id_spec`: with the identity stream and one unit
of fuel the generator yields `"ABCDEF"` on the empty store. -/
theorem generate_room_id_spec_witness :
    generate_room_id initManager (fun n => n) 1 = some "ABCDEF" ∧
      ("ABCDEF" : String).length = 6 ∧
      (∀ c ∈ ("ABCDEF" : String).data, c ∈ roomIdChars) ∧
      roomIdChars = "ABCDEFGHJKLMNPQRSTUVWXYZ23456789".toList ∧
      alLookup "ABCDEF" initManager.rooms = none := by
  have h : generate_room_id initManager (fun n => n) 1 = some "ABCDEF" := by decide
  obtain ⟨h1, h2, h3, h4⟩ := generate_room_id_spec initManager (fun n => n) 1 "ABCDEF" h
  exact ⟨h, h1, h2, h3, h4⟩

/-! ### Concrete scenario states -/

/-- A seat disconnected for longer than the 60-second grace period. -/
def stalePlayer : Player :=
  { id := "p1", name := "Ann", color := PieceColor.light,
    isConnected := false, disconnectedAt := some 0 }

/-- A non-idle room whose only seat is `stalePlayer`. -/
def staleRoom : GameRoom :=
  { id := "ABCDEF", variant := GameVariant.international, createdAt := 0,
    lastActivityAt := 90, players := [stalePlayer] }

/-- Store holding just `staleRoom`, as the janitor finds it at time 100. -/
def crashState : RoomManager :=
  { rooms := [("ABCDEF", staleRoom)], player_to_room := [("p1", "ABCDEF")] }

/-- An idle room (no activity since time 0) seated by `"p2"`. -/
def idleRoom : GameRoom :=
  { id := "GHJKLM", variant := GameVariant.international, createdAt := 0,
    lastActivityAt := 0,
    players := [{ id := "p2", name := "Ben", color := PieceColor.light }] }

/-- `staleRoom` re-timed so that it is not idle at time 10000 while its seat
is still past the grace period. -/
def lateStaleRoom : GameRoom :=
  { staleRoom with
      lastActivityAt := 9990,
      players := [{ stalePlayer with disconnectedAt := some 9000 }] }

/-- A store where a grace-period removal will empty `"ABCDEF"` before the
sweep reaches the idle room `"GHJKLM"`. -/
def crashThenIdleState : RoomManager :=
  { rooms := [("ABCDEF", lateStaleRoom), ("GHJKLM", idleRoom)],
    player_to_room := [("p1", "ABCDEF"), ("p2", "GHJKLM")] }

/-- The same player creates two rooms in a row (two `createRoom` requests with
the same `playerId`, each receiving a fresh generated id). -/
def doubleCreateState : RoomManager :=
  runOps initManager
    [Op.create "ABCDEF" "p1" "Ann" GameVariant.international 0,
     Op.create "GHJKLM" "p1" "Ann" GameVariant.international 1]

/-- Create, join, both ready (the gateway auto-starts), then the game ends. -/
def finishedGameState : RoomManager :=
  runOps initManager
    [Op.create "ABCDEF" "p1" "Ann" GameVariant.international 0,
     Op.join "ABCDEF" "p2" "Ben" 1,
     Op.ready "ABCDEF" "p1" true 2,
     Op.ready "ABCDEF" "p2" true 3,
     Op.start "ABCDEF" 4,
     Op.finish "ABCDEF" (some PieceColor.light) 5]

/-- A waiting room whose light-colored creator left, leaving one dark seat. -/
def darkSeatState : RoomManager :=
  runOps initManager
    [Op.create "ABCDEF" "p1" "Ann" GameVariant.international 0,
     Op.join "ABCDEF" "p2" "Ben" 1,
     Op.removeP "ABCDEF" "p1" 2]

/-- A waiting room holding only its creator `"p1"` (color light). -/
def waitingRoomState : RoomManager :=
  runOps initManager [Op.create "ABCDEF" "p1" "Ann" GameVariant.international 0]

/-! ### C6: the janitor sweep crashes on cascade room deletion -/

/-- C6 (code bug): on `crashState` — one live, non-idle room whose only seat
is disconnected past the grace period — the grace-period removal empties the
room, `remove_player` pops it from `self.rooms` while the sweep is iterating
`self.rooms.items()`, and the next iterator step raises
`RuntimeError: dictionary changed size during iteration` (`none` here), so
the sweep does not complete; the mutations made before the crash persist. -/
theorem janitor_crash_on_cascade :
    staleAt 100 stalePlayer = true ∧
    ¬ staleRoom.lastActivityAt + INACTIVE_ROOM_TIMEOUT_SECONDS < 100 ∧
    (cleanup_inactive_rooms crashState 100).2 = none ∧
    (cleanup_inactive_rooms crashState 100).1.rooms = [] ∧
    (cleanup_inactive_rooms crashState 100).1.player_to_room = [] := by decide

/-! ### C7 counterexample: the crash also strands idle rooms -/

/-- C7 counterexample: in `crashThenIdleState` the room `"GHJKLM"` is
idle-expired at time 10000, yet a single janitor sweep leaves it in the
store (the sweep raises after the cascade deletion of `"ABCDEF"` and never
reaches its deletion phase), and `"p2"` keeps its reverse-index entry. -/
theorem janitor_crash_strands_idle_room :
    idleRoom.lastActivityAt + INACTIVE_ROOM_TIMEOUT_SECONDS < 10000 ∧
    alLookup "GHJKLM" crashThenIdleState.rooms = some idleRoom ∧
    alLookup "GHJKLM" (cleanup_inactive_rooms crashThenIdleState 10000).1.rooms
      = some idleRoom ∧
    alLookup "p2" (cleanup_inactive_rooms crashThenIdleState 10000).1.player_to_room
      = some "GHJKLM" ∧
    (cleanup_inactive_rooms crashThenIdleState 10000).2 = none := by decide

/-! ### C1 counterexample: one player seated in two live rooms -/

/-- C1 counterexample: after two `createRoom` calls by the same player,
`"p1"` occupies a seat in both live rooms `"ABCDEF"` and `"GHJKLM"`, and the
reverse index maps `"p1"` only to the second, disagreeing with the forward
map on the first. -/
theorem double_create_seats_player_twice :
    seatedInB doubleCreateState "p1" "ABCDEF" = true ∧
    seatedInB doubleCreateState "p1" "GHJKLM" = true ∧
    ("ABCDEF" : String) ≠ "GHJKLM" ∧
    alLookup "p1" doubleCreateState.player_to_room = some "GHJKLM" := by decide

/-! ### C2 counterexample: a finished room restarts -/

/-- C2 counterexample: in `finishedGameState` the room is `Finished` with
both seats still flagged ready, and a further `startGame` (as the gateway
issues after any `playerReady` event, since `can_start_game` never checks
the status) moves the status back to `Playing`. -/
theorem start_game_regresses_finished_room :
    (alLookup "ABCDEF" finishedGameState.rooms).map GameRoom.status
      = some GameStatus.finished ∧
    can_start_game finishedGameState "ABCDEF" = true ∧
    (alLookup "ABCDEF" (applyOp finishedGameState (Op.start "ABCDEF" 6)).rooms).map
        GameRoom.status = some GameStatus.playing := by decide

/-! ### C4 counterexample: the joiner's color is not "the remaining color" -/

/-- C4 counterexample: `darkSeatState` holds a Waiting room with exactly one
seated player whose color is dark; a fresh `joinRoom` seats the joiner with
dark as well — not the remaining color — so both seats hold the same color. -/
theorem join_gives_dark_even_when_dark_is_taken :
    (alLookup "ABCDEF" darkSeatState.rooms).map
        (fun r => (r.status, r.players.map Player.color))
      = some (GameStatus.waiting, [PieceColor.dark]) ∧
    (match join_room darkSeatState "ABCDEF" "p3" "Cam" 3 with
     | .ok (_, r) => some (r.players.map Player.color)
     | .error _ => none) = some [PieceColor.dark, PieceColor.dark] := by decide

/-- Two rooms created by two different players. -/
def twoRoomsState : RoomManager :=
  runOps initManager
    [Op.create "ABCDEF" "p1" "Ann" GameVariant.international 0,
     Op.create "GHJKLM" "p2" "Ben" GameVariant.international 1]

/-! ### C3: makeMove turn and status handling -/

/-- The creator seat of `waitingRoomState`. -/
def creatorP : Player := { id := "p1", name := "Ann", color := PieceColor.light }

/-- The room of `waitingRoomState`: fresh, Waiting, one light seat. -/
def creatorRoom : GameRoom :=
  { id := "ABCDEF", players := [creatorP], variant := GameVariant.international,
    createdAt := 0, lastActivityAt := 0 }

/-- C3 counterexample: on a Waiting (not Playing) room, a `makeMove` by the
player whose color equals `currentTurn` is answered with a success reply even
though the board and turn are left unchanged (the handler ignores
`update_game_state` returning `False`). -/
theorem makeMove_success_reply_when_not_playing :
    (alLookup "ABCDEF" waitingRoomState.rooms).map
        (fun r => (r.status, r.currentTurn)) =
      some (GameStatus.waiting, PieceColor.light) ∧
    (alLookup "ABCDEF" waitingRoomState.rooms).map GameRoom.board = some none ∧
    creatorP.color = PieceColor.light ∧
    (makeMove waitingRoomState "ABCDEF" "p1" [[]] PieceColor.dark 5).2 = MoveReply.ok ∧
    (alLookup "ABCDEF"
        (makeMove waitingRoomState "ABCDEF" "p1" [[]] PieceColor.dark 5).1.rooms).map
      (fun r => (r.currentTurn, r.status)) =
      some (PieceColor.light, GameStatus.waiting) ∧
    (alLookup "ABCDEF"
        (makeMove waitingRoomState "ABCDEF" "p1" [[]] PieceColor.dark 5).1.rooms).map
      GameRoom.board = some none := by decide

/-- `room` with its `lastActivityAt` refreshed, as `get_room` rewrites it. -/
def bumpRoom (room : GameRoom) (now : Nat) : GameRoom :=
  { room with lastActivityAt := now }

/-- `room` after a successful `update_game_state`. -/
def movedRoom (room : GameRoom) (b : Board) (t : PieceColor) (now : Nat) : GameRoom :=
  { room with board := some b, currentTurn := t, lastActivityAt := now }

/-- C3 amended: on an existing room, `makeMove` replies `"Not your turn"`
and leaves board and turn unchanged when the acting player is absent or the
player's color differs from `currentTurn`; when the color matches but the
status is not `Playing`, board and turn are still unchanged (the manager
refuses the update) but the handler nevertheless replies success; only when
the status is `Playing` are `board` and `currentTurn` replaced and the
activity bumped. -/
theorem makeMove_spec (s : RoomManager) (rid pid : String) (b : Board)
    (t : PieceColor) (now : Nat) (room : GameRoom)
    (hr : alLookup rid s.rooms = some room) :
    ((findPlayer pid room.players).map Player.color ≠ some room.currentTurn →
      makeMove s rid pid b t now =
        ({ s with rooms := alInsert rid (bumpRoom room now) s.rooms },
         MoveReply.err "Not your turn")) ∧
    (∀ p, findPlayer pid room.players = some p → p.color = room.currentTurn →
      room.status ≠ GameStatus.playing →
      makeMove s rid pid b t now =
        ({ s with rooms := alInsert rid (bumpRoom room now) s.rooms },
         MoveReply.ok)) ∧
    (∀ p, findPlayer pid room.players = some p → p.color = room.currentTurn →
      room.status = GameStatus.playing →
      makeMove s rid pid b t now =
        ({ s with rooms := alInsert rid (movedRoom room b t now) (alInsert rid (bumpRoom room now) s.rooms) },
         MoveReply.ok)) := by
  refine ⟨?_, ?_, ?_⟩
  · intro hne
    rcases hp : findPlayer pid room.players with _ | p
    · simp [makeMove, get_room, hr, hp, bumpRoom]
    · rw [hp] at hne
      have hc : p.color ≠ room.currentTurn := fun h => hne (by simp [h])
      simp [makeMove, get_room, hr, hp, hc, bumpRoom]
  · intro p hp hc hst
    simp [makeMove, get_room, update_game_state, alLookup_alInsert_self,
      hr, hp, hc, hst, bumpRoom]
  · intro p hp hc hst
    simp [makeMove, get_room, update_game_state, alLookup_alInsert_self,
      hr, hp, hc, hst, bumpRoom, movedRoom]

/-- Witness for `makeMove_spec`: the not-Playing success-reply branch on
`waitingRoomState`. -/
theorem makeMove_spec_witness :
    alLookup "ABCDEF" waitingRoomState.rooms = some creatorRoom ∧
    makeMove waitingRoomState "ABCDEF" "p1" [[]] PieceColor.dark 5 =
      ({ waitingRoomState with
          rooms := alInsert "ABCDEF" (bumpRoom creatorRoom 5) waitingRoomState.rooms },
       MoveReply.ok) := by
  have h : alLookup "ABCDEF" waitingRoomState.rooms = some creatorRoom := by decide
  exact ⟨h, (makeMove_spec waitingRoomState "ABCDEF" "p1" [[]] PieceColor.dark 5
    creatorRoom h).2.1 creatorP (by decide) (by decide) (by decide)⟩

/-! ### C4 amended: a fresh joiner is always seated dark -/

/-- The seat colors of a `join_room` result, in seating order. -/
def joinColors (res : Except String (RoomManager × GameRoom)) : Option (List PieceColor) :=
  match res with
  | .ok (_, r) => some (r.players.map Player.color)
  | .error _ => none

/-- C4 amended: a fresh `joinRoom` into a Waiting room with exactly one
occupied seat always assigns the joiner the dark color — regardless of the
seated player's color — so the two colors are distinct precisely when the
seated player holds light (the creator's color). -/
theorem join_one_seat_assigns_dark (s : RoomManager) (rid pid pname : String)
    (now : Nat) (room : GameRoom) (p : Player)
    (hr : alLookup rid s.rooms = some room)
    (hone : room.players = [p]) (hid : p.id ≠ pid)
    (hw : room.status = GameStatus.waiting) :
    joinColors (join_room s rid pid pname now) = some [p.color, PieceColor.dark] ∧
    ([p.color, PieceColor.dark].Nodup ↔ p.color = PieceColor.light) := by
  have hnp : findPlayer pid [p] = none := by
    simp [findPlayer, hid]
  constructor
  · simp [joinColors, join_room, hr, hw, hone, hnp]
  · cases p.color <;> decide

/-- Witness for `join_one_seat_assigns_dark`: joining the creator's fresh
room seats the joiner dark, giving distinct colors. -/
theorem join_one_seat_assigns_dark_witness :
    alLookup "ABCDEF" waitingRoomState.rooms = some creatorRoom ∧
    creatorRoom.players = [creatorP] ∧
    joinColors (join_room waitingRoomState "ABCDEF" "p2" "Ben" 3) =
      some [creatorP.color, PieceColor.dark] ∧
    ([creatorP.color, PieceColor.dark].Nodup ↔ creatorP.color = PieceColor.light) := by
  have h : alLookup "ABCDEF" waitingRoomState.rooms = some creatorRoom := by decide
  obtain ⟨h1, h2⟩ := join_one_seat_assigns_dark waitingRoomState "ABCDEF" "p2" "Ben" 3
    creatorRoom creatorP h (by decide) (by decide) (by decide)
  exact ⟨h, by decide, h1, h2⟩

/-! ### C10: remove_player pops the reverse-index entry unconditionally -/

/-- C10: when `removePlayer(rid, pid)` targets an existing room in which
`pid` is *not* seated, the reverse-index entry of `pid` — pointing at some
other room `rid2` — is removed all the same, while `rid`'s seats are merely
refreshed and every other room (including `rid2`) is untouched. -/
theorem remove_player_pops_foreign_reverse_entry (s : RoomManager)
    (rid pid rid2 : String) (now : Nat) (room : GameRoom)
    (hr : alLookup rid s.rooms = some room)
    (hnp : findPlayer pid room.players = none)
    (hne : room.players ≠ [])
    (hnd : (s.player_to_room.map Prod.fst).Nodup)
    (hmap : alLookup pid s.player_to_room = some rid2)
    (hrne : rid2 ≠ rid) :
    alLookup pid (remove_player s rid pid now).1.player_to_room = none ∧
    (∀ r, r ≠ rid →
      alLookup r (remove_player s rid pid now).1.rooms = alLookup r s.rooms) ∧
    (remove_player s rid pid now).2 = some { room with lastActivityAt := now } := by
  have hfil : room.players.filter (fun p => p.id ≠ pid) = room.players := by
    apply List.filter_eq_self.mpr
    intro a ha
    have haid : a.id ≠ pid := by
      intro h
      exact (findPlayer_eq_none_iff pid room.players).mp hnp
        (List.mem_map.mpr ⟨a, ha, h⟩)
    simpa using haid
  have hlen : ¬ room.players.length = 0 := by
    intro h
    exact hne (List.length_eq_zero.mp h)
  refine ⟨?_, ?_, ?_⟩
  · simp only [remove_player, hr, hfil]
    rw [if_neg hlen]
    exact alLookup_alErase_self hnd
  · intro r hrne2
    simp only [remove_player, hr, hfil]
    rw [if_neg hlen]
    exact alLookup_alInsert_ne _ hrne2 _
  · simp only [remove_player, hr, hfil]
    rw [if_neg hlen]

/-- Witness for `remove_player_pops_foreign_reverse_entry`: removing `"p1"`
from the second room of `doubleCreateState` (where only `"p1"` is seated in
both rooms — see the seating counterexample — we instead use a two-room
state where `"p2"` is seated only in `"GHJKLM"`). -/
theorem remove_player_pops_foreign_reverse_entry_witness :
    alLookup "ABCDEF" twoRoomsState.rooms = some creatorRoom ∧
    findPlayer "p2" creatorRoom.players = none ∧
    alLookup "p2" twoRoomsState.player_to_room = some "GHJKLM" ∧
    alLookup "p2" (remove_player twoRoomsState "ABCDEF" "p2" 9).1.player_to_room
      = none ∧
    (∀ r, r ≠ "ABCDEF" →
      alLookup r (remove_player twoRoomsState "ABCDEF" "p2" 9).1.rooms
        = alLookup r twoRoomsState.rooms) ∧
    (remove_player twoRoomsState "ABCDEF" "p2" 9).2
      = some { creatorRoom with lastActivityAt := 9 } := by
  obtain ⟨h1, h2, h3⟩ := remove_player_pops_foreign_reverse_entry twoRoomsState
    "ABCDEF" "p2" "GHJKLM" 9 creatorRoom (by decide) (by decide) (by decide)
    (by decide) (by decide) (by decide)
  exact ⟨by decide, by decide, by decide, h1, h2, h3⟩

/-! ### C8: joinRoom reconnection -/

theorem map_idcolor_updateFirstPlayer (pid : String) (f : Player → Player)
    (hf : ∀ q, (f q).id = q.id ∧ (f q).color = q.color) :
    ∀ ps : List Player,
      (updateFirstPlayer pid f ps).map (fun q => (q.id, q.color)) =
        ps.map (fun q => (q.id, q.color)) := by
  intro ps
  induction ps with
  | nil => simp [updateFirstPlayer]
  | cons p rest ih =>
    by_cases h : p.id = pid
    · simp [updateFirstPlayer, h, (hf p).1, (hf p).2]
    · simp [updateFirstPlayer, h, ih]

/-- The seat refresh applied by `join_room`'s reconnection branch. -/
def reconnUpdate (pname : String) : Player → Player :=
  fun p => { p with isConnected := true, disconnectedAt := none, name := pname }

/-- The room produced by `join_room`'s reconnection branch. -/
def reconnRoom (room : GameRoom) (pid pname : String) (now : Nat) : GameRoom :=
  { room with players := updateFirstPlayer pid (reconnUpdate pname) room.players,
              lastActivityAt := now }

theorem join_reconnect_eq (s : RoomManager) (rid pid pname : String) (now : Nat)
    (room : GameRoom) (p : Player)
    (hr : alLookup rid s.rooms = some room)
    (hp : findPlayer pid room.players = some p) :
    join_room s rid pid pname now =
      Except.ok ({ s with rooms := alInsert rid (reconnRoom room pid pname now) s.rooms },
                 reconnRoom room pid pname now) := by
  simp only [join_room, hr, hp]
  rfl

theorem reconnUpdate_id_color (pname : String) :
    ∀ q : Player, (reconnUpdate pname q).id = q.id ∧ (reconnUpdate pname q).color = q.color := by
  intro q
  simp [reconnUpdate]

/-- C8: when the joining player already occupies a seat of the target room
(whatever the status), `join_room` is a reconnection: it succeeds, keeps
every seat and color (no duplicate seat), keeps status and turn, refreshes
activity, marks the seat connected with the disconnect timestamp cleared and
the name updated, leaves the reverse index and all other rooms untouched —
and a second `join_room` by the same player still leaves the seating
unchanged. -/
theorem join_reconnection_idempotent (s : RoomManager) (rid pid pname : String)
    (now : Nat) (room : GameRoom) (p : Player)
    (hr : alLookup rid s.rooms = some room)
    (hp : findPlayer pid room.players = some p) :
    ∃ s' room', join_room s rid pid pname now = Except.ok (s', room') ∧
      room'.players.map (fun q => (q.id, q.color)) =
        room.players.map (fun q => (q.id, q.color)) ∧
      room'.status = room.status ∧
      room'.currentTurn = room.currentTurn ∧
      room'.lastActivityAt = now ∧
      findPlayer pid room'.players =
        some { p with isConnected := true, disconnectedAt := none, name := pname } ∧
      s'.player_to_room = s.player_to_room ∧
      alLookup rid s'.rooms = some room' ∧
      (∀ r, r ≠ rid → alLookup r s'.rooms = alLookup r s.rooms) ∧
      (∀ pname2 now2, ∃ s'' room'',
        join_room s' rid pid pname2 now2 = Except.ok (s'', room'') ∧
        room''.players.map (fun q => (q.id, q.color)) =
          room.players.map (fun q => (q.id, q.color))) := by
  have hfid : ∀ q : Player, (reconnUpdate pname q).id = q.id :=
    fun q => (reconnUpdate_id_color pname q).1
  have hmap : (reconnRoom room pid pname now).players.map (fun q => (q.id, q.color)) =
      room.players.map (fun q => (q.id, q.color)) := by
    simp only [reconnRoom]
    exact map_idcolor_updateFirstPlayer pid _ (reconnUpdate_id_color pname) room.players
  have hfp : findPlayer pid (reconnRoom room pid pname now).players =
      some (reconnUpdate pname p) := by
    simp only [reconnRoom]
    rw [findPlayer_updateFirstPlayer_self pid _ hfid, hp]
    rfl
  refine ⟨_, _, join_reconnect_eq s rid pid pname now room p hr hp,
    hmap, rfl, rfl, rfl, ?_, rfl, alLookup_alInsert_self _ _ _, ?_, ?_⟩
  · rw [hfp]
    rfl
  · intro r hrne
    exact alLookup_alInsert_ne _ hrne _
  · intro pname2 now2
    refine ⟨_, _, join_reconnect_eq _ rid pid pname2 now2 _ (reconnUpdate pname p)
      (alLookup_alInsert_self _ _ _) hfp, ?_⟩
    rw [show (reconnRoom (reconnRoom room pid pname now) pid pname2 now2).players =
        updateFirstPlayer pid (reconnUpdate pname2) (reconnRoom room pid pname now).players
      from rfl]
    rw [map_idcolor_updateFirstPlayer pid _ (reconnUpdate_id_color pname2)]
    exact hmap

/-- Witness for `join_reconnection_idempotent` on the creator's fresh room. -/
theorem join_reconnection_idempotent_witness :
    alLookup "ABCDEF" waitingRoomState.rooms = some creatorRoom ∧
    findPlayer "p1" creatorRoom.players = some creatorP ∧
    (∃ s' room', join_room waitingRoomState "ABCDEF" "p1" "Anne" 7 =
        Except.ok (s', room') ∧
      room'.players.map (fun q => (q.id, q.color)) =
        creatorRoom.players.map (fun q => (q.id, q.color)) ∧
      room'.status = creatorRoom.status ∧
      room'.currentTurn = creatorRoom.currentTurn ∧
      room'.lastActivityAt = 7 ∧
      findPlayer "p1" room'.players =
        some { creatorP with isConnected := true, disconnectedAt := none,
                             name := "Anne" } ∧
      s'.player_to_room = waitingRoomState.player_to_room ∧
      alLookup "ABCDEF" s'.rooms = some room' ∧
      (∀ r, r ≠ "ABCDEF" → alLookup r s'.rooms = alLookup r waitingRoomState.rooms) ∧
      (∀ pname2 now2, ∃ s'' room'',
        join_room s' "ABCDEF" "p1" pname2 now2 = Except.ok (s'', room'') ∧
        room''.players.map (fun q => (q.id, q.color)) =
          creatorRoom.players.map (fun q => (q.id, q.color)))) :=
  ⟨by decide, by decide,
   join_reconnection_idempotent waitingRoomState "ABCDEF" "p1" "Anne" 7
     creatorRoom creatorP (by decide) (by decide)⟩

/-! ### C5: abrupt disconnect mid-game -/

/-- The seat marking applied by `handle_disconnect`. -/
def discUpdate (now : Nat) : Player → Player :=
  fun p => { p with isConnected := false, disconnectedAt := some now }

/-- The room produced by `end_game`. -/
def endedRoom (room : GameRoom) (w : Option PieceColor) (now : Nat) : GameRoom :=
  { room with status := GameStatus.finished, winner := w, lastActivityAt := now }

/-- The room after forfeit plus disconnect marking. -/
def forfeitedRoom (room : GameRoom) (pid : String) (w : PieceColor) (now : Nat) :
    GameRoom :=
  { room with players := updateFirstPlayer pid (discUpdate now) room.players,
              status := GameStatus.finished, winner := some w,
              lastActivityAt := now }

/-- C5: on a transport disconnect mapped to `(rid, pid)` with the room
Playing and the player seated (so the reverse index holds `pid ↦ rid`), the
gateway ends the game recording the opponent's color as winner and still
runs `handle_disconnect`: the seat survives (same seated ids) and is marked
disconnected with the timestamp set. -/
theorem disconnect_mid_game_forfeits_and_keeps_seat (s : RoomManager)
    (rid pid : String) (now : Nat) (room : GameRoom) (p : Player)
    (hr : alLookup rid s.rooms = some room)
    (hplay : room.status = GameStatus.playing)
    (hp : findPlayer pid room.players = some p)
    (hidx : alLookup pid s.player_to_room = some rid) :
    ∃ room', alLookup rid (gatewayDisconnect s rid pid now).rooms = some room' ∧
      room'.status = GameStatus.finished ∧
      room'.winner = some (opponentColor p.color) ∧
      room'.players.map Player.id = room.players.map Player.id ∧
      findPlayer pid room'.players =
        some { p with isConnected := false, disconnectedAt := some now } := by
  have hmain : gatewayDisconnect s rid pid now =
      { s with rooms := alInsert rid (forfeitedRoom room pid (opponentColor p.color) now) (alInsert rid (endedRoom room (some (opponentColor p.color)) now) (alInsert rid (bumpRoom room now) s.rooms)) } := by
    simp only [gatewayDisconnect, get_room, end_game, handle_disconnect, hr, hplay,
      hp, hidx, alLookup_alInsert_self, bumpRoom, endedRoom, forfeitedRoom,
      discUpdate, if_true, ite_true, eq_self_iff_true]
    rfl
  refine ⟨forfeitedRoom room pid (opponentColor p.color) now, ?_, rfl, rfl, ?_, ?_⟩
  · rw [hmain]
    exact alLookup_alInsert_self _ _ _
  · simp only [forfeitedRoom]
    exact map_id_updateFirstPlayer pid (discUpdate now) (fun q => rfl) room.players
  · simp only [forfeitedRoom]
    rw [findPlayer_updateFirstPlayer_self pid (discUpdate now) (fun q => rfl), hp]
    rfl

/-- The two-seat room mid-game: both players ready, status Playing. -/
def readyP1 : Player :=
  { id := "p1", name := "Ann", color := PieceColor.light, isReady := true }

/-- The dark seat of `playingState`. -/
def readyP2 : Player :=
  { id := "p2", name := "Ben", color := PieceColor.dark, isReady := true }

/-- The room of `playingState`. -/
def playingRoom : GameRoom :=
  { id := "ABCDEF", players := [readyP1, readyP2],
    variant := GameVariant.international, createdAt := 0, lastActivityAt := 4,
    status := GameStatus.playing }

/-- A game in progress, reached through the public event flow. -/
def playingState : RoomManager :=
  runOps initManager
    [Op.create "ABCDEF" "p1" "Ann" GameVariant.international 0,
     Op.join "ABCDEF" "p2" "Ben" 1,
     Op.ready "ABCDEF" "p1" true 2,
     Op.ready "ABCDEF" "p2" true 3,
     Op.start "ABCDEF" 4]

/-- Witness for `disconnect_mid_game_forfeits_and_keeps_seat`: `"p2"` drops
mid-game; `"p1"`'s color light is recorded as winner and `"p2"` stays seated,
marked disconnected. -/
theorem disconnect_mid_game_forfeits_and_keeps_seat_witness :
    alLookup "ABCDEF" playingState.rooms = some playingRoom ∧
    playingRoom.status = GameStatus.playing ∧
    findPlayer "p2" playingRoom.players = some readyP2 ∧
    alLookup "p2" playingState.player_to_room = some "ABCDEF" ∧
    (∃ room', alLookup "ABCDEF" (gatewayDisconnect playingState "ABCDEF" "p2" 9).rooms
        = some room' ∧
      room'.status = GameStatus.finished ∧
      room'.winner = some (opponentColor readyP2.color) ∧
      room'.players.map Player.id = playingRoom.players.map Player.id ∧
      findPlayer "p2" room'.players =
        some { readyP2 with isConnected := false, disconnectedAt := some 9 }) :=
  ⟨by decide, by decide, by decide, by decide,
   disconnect_mid_game_forfeits_and_keeps_seat playingState "ABCDEF" "p2" 9
     playingRoom readyP2 (by decide) (by decide) (by decide) (by decide)⟩

/-! ### Seating lemmas and the invariant's consequences -/

theorem seatedInB_intro {s : RoomManager} {pid rid : String} {room : GameRoom}
    (hr : alLookup rid s.rooms = some room)
    (hs : (findPlayer pid room.players).isSome = true) :
    seatedInB s pid rid = true := by
  simp only [seatedInB, hr]
  exact hs

theorem seatedInB_elim {s : RoomManager} {pid rid : String}
    (h : seatedInB s pid rid = true) :
    ∃ room, alLookup rid s.rooms = some room ∧
      (findPlayer pid room.players).isSome = true := by
  unfold seatedInB at h
  cases hl : alLookup rid s.rooms with
  | none => rw [hl] at h; simp at h
  | some room => rw [hl] at h; exact ⟨room, rfl, h⟩

theorem seatedAnywhereB_false {s : RoomManager} {pid : String}
    (h : seatedAnywhereB s pid = false) {r : String} {room : GameRoom}
    (hr : alLookup r s.rooms = some room) : findPlayer pid room.players = none := by
  have hmem := mem_of_alLookup hr
  unfold seatedAnywhereB at h
  rw [List.any_eq_false] at h
  have := h _ hmem
  cases hfp : findPlayer pid room.players with
  | none => rfl
  | some p => rw [hfp] at this; simp at this

theorem notSeatedOutsideB_elim {s : RoomManager} {pid rid : String}
    (h : notSeatedOutsideB s pid rid = true) {r : String} {room : GameRoom}
    (hne : r ≠ rid) (hr : alLookup r s.rooms = some room) :
    findPlayer pid room.players = none := by
  have hmem := mem_of_alLookup hr
  unfold notSeatedOutsideB at h
  rw [List.all_eq_true] at h
  have h2 := h _ hmem
  rw [Bool.or_eq_true] at h2
  rcases h2 with h2 | h2
  · exact absurd (by simpa using h2) hne
  · simpa [Option.isNone_iff_eq_none] using h2

theorem seat_unique {s : RoomManager} (h : Inv s) {pid r1 r2 : String}
    {room1 room2 : GameRoom}
    (h1 : alLookup r1 s.rooms = some room1)
    (hs1 : (findPlayer pid room1.players).isSome = true)
    (h2 : alLookup r2 s.rooms = some room2)
    (hs2 : (findPlayer pid room2.players).isSome = true) : r1 = r2 := by
  have e1 := (h.2.2.2 pid r1).mpr ⟨room1, h1, hs1⟩
  have e2 := (h.2.2.2 pid r2).mpr ⟨room2, h2, hs2⟩
  rw [e1] at e2
  exact Option.some.inj e2

theorem no_entry_of_unseated {s : RoomManager} (h : Inv s) {pid : String}
    (hn : ∀ r room, alLookup r s.rooms = some room →
      findPlayer pid room.players = none) :
    alLookup pid s.player_to_room = none := by
  cases he : alLookup pid s.player_to_room with
  | none => rfl
  | some r =>
    obtain ⟨room, hr, hs⟩ := (h.2.2.2 pid r).mp he
    rw [hn r room hr] at hs
    simp at hs

/-! ### remove_player: characterization and invariant preservation -/

theorem remove_player_rooms_lookup_ne {s : RoomManager} {rid pid : String}
    {now : Nat} {r : String} (hne : r ≠ rid) :
    alLookup r (remove_player s rid pid now).1.rooms = alLookup r s.rooms := by
  cases hl : alLookup rid s.rooms with
  | none => simp only [remove_player, hl]
  | some room =>
    by_cases he : (room.players.filter (fun p => p.id ≠ pid)).length = 0
    · simp only [remove_player, hl, if_pos he]
      exact alLookup_alErase_ne hne _
    · simp only [remove_player, hl, if_neg he]
      exact alLookup_alInsert_ne _ hne _

theorem remove_player_keys_nodup {s : RoomManager} {rid pid : String} {now : Nat}
    (h : (s.rooms.map Prod.fst).Nodup) :
    (((remove_player s rid pid now).1.rooms).map Prod.fst).Nodup := by
  cases hl : alLookup rid s.rooms with
  | none => simpa only [remove_player, hl] using h
  | some room =>
    by_cases he : (room.players.filter (fun p => p.id ≠ pid)).length = 0
    · simp only [remove_player, hl, if_pos he]
      exact nodup_keys_alErase _ h
    · simp only [remove_player, hl, if_neg he]
      exact nodup_keys_alInsert _ h

theorem remove_player_ptr_keys_nodup {s : RoomManager} {rid pid : String} {now : Nat}
    (h : (s.player_to_room.map Prod.fst).Nodup) :
    (((remove_player s rid pid now).1.player_to_room).map Prod.fst).Nodup := by
  cases hl : alLookup rid s.rooms with
  | none => simpa only [remove_player, hl] using h
  | some room =>
    by_cases he : (room.players.filter (fun p => p.id ≠ pid)).length = 0
    · simp only [remove_player, hl, if_pos he]
      exact nodup_keys_alErase _ h
    · simp only [remove_player, hl, if_neg he]
      exact nodup_keys_alErase _ h

theorem shrink_remove_player {s : RoomManager} {rid pid : String} {now : Nat}
    (hnd : (s.rooms.map Prod.fst).Nodup) {q r : String}
    (h : seatedInB (remove_player s rid pid now).1 q r = true) :
    seatedInB s q r = true := by
  obtain ⟨room', hr', hs'⟩ := seatedInB_elim h
  by_cases hne : r = rid
  · cases hl : alLookup rid s.rooms with
    | none =>
      have hrw : (remove_player s rid pid now).1.rooms = s.rooms := by
        simp only [remove_player, hl]
      rw [hrw, hne, hl] at hr'
      cases hr'
    | some room =>
      by_cases he : (room.players.filter (fun p => p.id ≠ pid)).length = 0
      · have hrw : (remove_player s rid pid now).1.rooms = alErase rid s.rooms := by
          simp only [remove_player, hl, if_pos he]
        rw [hrw, hne, alLookup_alErase_self hnd] at hr'
        cases hr'
      · have hrw : (remove_player s rid pid now).1.rooms =
            alInsert rid { room with
              players := room.players.filter (fun p => p.id ≠ pid),
              lastActivityAt := now } s.rooms := by
          simp only [remove_player, hl, if_neg he]
        rw [hrw, hne, alLookup_alInsert_self] at hr'
        injection hr' with hr2
        rw [← hr2] at hs'
        rw [hne]
        refine seatedInB_intro hl ?_
        rw [findPlayer_isSome_iff] at hs' ⊢
        exact ((mem_map_id_filter_ne room.players).mp (by simpa using hs')).1
  · rw [remove_player_rooms_lookup_ne hne] at hr'
    exact seatedInB_intro hr' hs'

theorem Inv_remove_player {s : RoomManager} {rid pid : String} {now : Nat}
    (h : Inv s)
    (hout : ∀ r room, r ≠ rid → alLookup r s.rooms = some room →
      findPlayer pid room.players = none) :
    Inv (remove_player s rid pid now).1 := by
  obtain ⟨hk, hpk, hroom, hiff⟩ := h
  cases hl : alLookup rid s.rooms with
  | none => simpa only [remove_player, hl] using ⟨hk, hpk, hroom, hiff⟩
  | some room =>
    by_cases he : (room.players.filter (fun p => p.id ≠ pid)).length = 0
    · simp only [remove_player, hl, if_pos he]
      refine ⟨nodup_keys_alErase _ hk, nodup_keys_alErase _ hpk, ?_, ?_⟩
      · intro r ro hr
        by_cases hne : r = rid
        · rw [hne, alLookup_alErase_self hk] at hr
          cases hr
        · rw [alLookup_alErase_ne hne] at hr
          exact hroom r ro hr
      · intro q r
        by_cases hq : q = pid
        · rw [hq, alLookup_alErase_self hpk]
          constructor
          · intro hfalse
            cases hfalse
          · rintro ⟨ro, hr, hs⟩
            by_cases hne : r = rid
            · rw [hne, alLookup_alErase_self hk] at hr
              cases hr
            · rw [alLookup_alErase_ne hne] at hr
              rw [hout r ro hne hr] at hs
              cases hs
        · rw [alLookup_alErase_ne hq]
          constructor
          · intro hq2
            obtain ⟨ro, hro, hso⟩ := (hiff q r).mp hq2
            have hrne : r ≠ rid := by
              intro hre
              rw [hre, hl] at hro
              injection hro with hro2
              rw [← hro2] at hso
              have hmm : q ∈ (room.players.filter
                  (fun p => p.id ≠ pid)).map Player.id := by
                rw [mem_map_id_filter_ne]
                exact ⟨(findPlayer_isSome_iff q room.players).mp hso, hq⟩
              rw [List.length_eq_zero.mp he] at hmm
              cases hmm
            refine ⟨ro, ?_, hso⟩
            rw [alLookup_alErase_ne hrne]
            exact hro
          · rintro ⟨ro, hro, hso⟩
            by_cases hrne : r = rid
            · rw [hrne, alLookup_alErase_self hk] at hro
              cases hro
            · rw [alLookup_alErase_ne hrne] at hro
              exact (hiff q r).mpr ⟨ro, hro, hso⟩
    · simp only [remove_player, hl, if_neg he]
      refine ⟨nodup_keys_alInsert _ hk, nodup_keys_alErase _ hpk, ?_, ?_⟩
      · intro r ro hr
        by_cases hne : r = rid
        · rw [hne, alLookup_alInsert_self] at hr
          injection hr with hr2
          rw [← hr2]
          constructor
          · simpa using Nat.le_trans (List.length_filter_le _ _)
              (hroom rid room hl).1
          · simpa using nodup_map_id_filter _ (hroom rid room hl).2
        · rw [alLookup_alInsert_ne _ hne] at hr
          exact hroom r ro hr
      · intro q r
        have hseat : ((findPlayer q (room.players.filter
            (fun p => p.id ≠ pid))).isSome = true) ↔
            ((findPlayer q room.players).isSome = true) ∧ q ≠ pid := by
          rw [findPlayer_isSome_iff, findPlayer_isSome_iff, mem_map_id_filter_ne]
        by_cases hq : q = pid
        · rw [hq, alLookup_alErase_self hpk]
          constructor
          · intro hfalse
            cases hfalse
          · rintro ⟨ro, hr, hs⟩
            by_cases hne : r = rid
            · rw [hne, alLookup_alInsert_self] at hr
              injection hr with hr2
              rw [← hr2] at hs
              simp only [findPlayer_filter_self] at hs
              cases hs
            · rw [alLookup_alInsert_ne _ hne] at hr
              rw [hout r ro hne hr] at hs
              cases hs
        · rw [alLookup_alErase_ne hq]
          by_cases hne : r = rid
          · rw [hne, alLookup_alInsert_self]
            constructor
            · intro hq2
              obtain ⟨ro, hro, hso⟩ := (hiff q rid).mp hq2
              rw [hl] at hro
              injection hro with hro2
              rw [← hro2] at hso
              refine ⟨_, rfl, ?_⟩
              simpa using hseat.mpr ⟨hso, hq⟩
            · rintro ⟨ro, hro, hso⟩
              injection hro with hro2
              rw [← hro2] at hso
              exact (hiff q rid).mpr ⟨room, hl, (hseat.mp (by simpa using hso)).1⟩
          · rw [alLookup_alInsert_ne _ hne]
            exact hiff q r

/-! ### Invariant preservation: room updates, creation, fresh joins -/

theorem Inv_update_room {s : RoomManager} {rid : String} {room room' : GameRoom}
    (h : Inv s) (hr : alLookup rid s.rooms = some room)
    (hids : room'.players.map Player.id = room.players.map Player.id) :
    Inv { s with rooms := alInsert rid room' s.rooms } := by
  obtain ⟨hk, hpk, hroom, hiff⟩ := h
  have hlen : room'.players.length = room.players.length := by
    have h2 := congrArg List.length hids
    simpa using h2
  have hmemk : rid ∈ s.rooms.map Prod.fst :=
    (alLookup_isSome_iff rid s.rooms).mp (by rw [hr]; rfl)
  refine ⟨?_, hpk, ?_, ?_⟩
  · rw [keys_alInsert_of_mem _ hmemk]
    exact hk
  · intro r ro hr2
    by_cases hne : r = rid
    · rw [hne, alLookup_alInsert_self] at hr2
      injection hr2 with hr3
      rw [← hr3]
      exact ⟨hlen ▸ (hroom rid room hr).1, hids ▸ (hroom rid room hr).2⟩
    · rw [alLookup_alInsert_ne _ hne] at hr2
      exact hroom r ro hr2
  · intro q r
    have hseat : ((findPlayer q room'.players).isSome = true) ↔
        ((findPlayer q room.players).isSome = true) := by
      rw [findPlayer_isSome_iff, findPlayer_isSome_iff, hids]
    by_cases hne : r = rid
    · rw [hne, alLookup_alInsert_self]
      constructor
      · intro hq2
        obtain ⟨ro, hro, hso⟩ := (hiff q rid).mp hq2
        rw [hr] at hro
        injection hro with hro2
        rw [← hro2] at hso
        exact ⟨room', rfl, hseat.mpr hso⟩
      · rintro ⟨ro, hro, hso⟩
        injection hro with hro2
        rw [← hro2] at hso
        exact (hiff q rid).mpr ⟨room, hr, hseat.mp hso⟩
    · rw [alLookup_alInsert_ne _ hne]
      exact hiff q r

theorem Inv_create_state {s : RoomManager} {rid pid : String} {room : GameRoom}
    (h : Inv s) (hfresh : alLookup rid s.rooms = none)
    (hnsp : seatedAnywhereB s pid = false)
    (hplayers : room.players.map Player.id = [pid]) :
    Inv { rooms := alInsert rid room s.rooms,
          player_to_room := alInsert pid rid s.player_to_room } := by
  obtain ⟨hk, hpk, hroom, hiff⟩ := h
  have hunseat : ∀ r ro, alLookup r s.rooms = some ro →
      findPlayer pid ro.players = none :=
    fun r ro hr => seatedAnywhereB_false hnsp hr
  have hnoe : alLookup pid s.player_to_room = none :=
    no_entry_of_unseated ⟨hk, hpk, hroom, hiff⟩ hunseat
  refine ⟨nodup_keys_alInsert _ hk, nodup_keys_alInsert _ hpk, ?_, ?_⟩
  · intro r ro hr2
    by_cases hne : r = rid
    · rw [hne, alLookup_alInsert_self] at hr2
      injection hr2 with hr3
      rw [← hr3]
      constructor
      · have h2 := congrArg List.length hplayers
        simp only [List.length_map, List.length_singleton] at h2
        rw [h2]
        norm_num
      · rw [hplayers]
        exact List.nodup_singleton _
    · rw [alLookup_alInsert_ne _ hne] at hr2
      exact hroom r ro hr2
  · intro q r
    by_cases hq : q = pid
    · rw [hq, alLookup_alInsert_self]
      constructor
      · intro he
        injection he with he2
        rw [← he2]
        refine ⟨room, alLookup_alInsert_self _ _ _, ?_⟩
        rw [findPlayer_isSome_iff, hplayers]
        simp
      · rintro ⟨ro, hro, hso⟩
        by_cases hne : r = rid
        · rw [hne]
        · rw [alLookup_alInsert_ne _ hne] at hro
          rw [hunseat r ro hro] at hso
          cases hso
    · rw [alLookup_alInsert_ne _ hq]
      by_cases hne : r = rid
      · rw [hne, alLookup_alInsert_self]
        constructor
        · intro hq2
          obtain ⟨ro, hro, _⟩ := (hiff q rid).mp hq2
          rw [hfresh] at hro
          cases hro
        · rintro ⟨ro, hro, hso⟩
          injection hro with hro2
          rw [← hro2] at hso
          rw [findPlayer_isSome_iff, hplayers] at hso
          simp only [List.mem_singleton] at hso
          exact absurd hso hq
      · rw [alLookup_alInsert_ne _ hne]
        exact hiff q r

theorem Inv_join_fresh_state {s : RoomManager} {rid pid : String}
    {room room' : GameRoom}
    (h : Inv s) (hr : alLookup rid s.rooms = some room)
    (hnsp : seatedAnywhereB s pid = false)
    (hids : room'.players.map Player.id = room.players.map Player.id ++ [pid])
    (hlen : room.players.length ≤ 1) :
    Inv { rooms := alInsert rid room' s.rooms,
          player_to_room := alInsert pid rid s.player_to_room } := by
  obtain ⟨hk, hpk, hroom, hiff⟩ := h
  have hunseat : ∀ r ro, alLookup r s.rooms = some ro →
      findPlayer pid ro.players = none :=
    fun r ro hr2 => seatedAnywhereB_false hnsp hr2
  have hnoe : alLookup pid s.player_to_room = none :=
    no_entry_of_unseated ⟨hk, hpk, hroom, hiff⟩ hunseat
  have hpidnm : pid ∉ room.players.map Player.id :=
    (findPlayer_eq_none_iff pid room.players).mp (hunseat rid room hr)
  have hmemk : rid ∈ s.rooms.map Prod.fst :=
    (alLookup_isSome_iff rid s.rooms).mp (by rw [hr]; rfl)
  have hmemids : ∀ q : String, q ∈ room'.players.map Player.id ↔
      q ∈ room.players.map Player.id ∨ q = pid := by
    intro q
    rw [hids]
    simp
  refine ⟨?_, nodup_keys_alInsert _ hpk, ?_, ?_⟩
  · rw [keys_alInsert_of_mem _ hmemk]
    exact hk
  · intro r ro hr2
    by_cases hne : r = rid
    · rw [hne, alLookup_alInsert_self] at hr2
      injection hr2 with hr3
      rw [← hr3]
      constructor
      · have h2 := congrArg List.length hids
        simp only [List.length_map, List.length_append, List.length_singleton] at h2
        rw [h2]
        exact Nat.add_le_add hlen (Nat.le_refl 1)
      · rw [hids, List.nodup_append]
        refine ⟨(hroom rid room hr).2, List.nodup_singleton _, ?_⟩
        intro a ha hb
        simp only [List.mem_singleton] at hb
        exact hpidnm (hb ▸ ha)
    · rw [alLookup_alInsert_ne _ hne] at hr2
      exact hroom r ro hr2
  · intro q r
    by_cases hq : q = pid
    · rw [hq, alLookup_alInsert_self]
      constructor
      · intro he
        injection he with he2
        rw [← he2]
        refine ⟨room', alLookup_alInsert_self _ _ _, ?_⟩
        rw [findPlayer_isSome_iff, hmemids]
        exact Or.inr rfl
      · rintro ⟨ro, hro, hso⟩
        by_cases hne : r = rid
        · rw [hne]
        · rw [alLookup_alInsert_ne _ hne] at hro
          rw [hunseat r ro hro] at hso
          cases hso
    · rw [alLookup_alInsert_ne _ hq]
      by_cases hne : r = rid
      · rw [hne, alLookup_alInsert_self]
        have hseat : ((findPlayer q room'.players).isSome = true) ↔
            ((findPlayer q room.players).isSome = true) := by
          rw [findPlayer_isSome_iff, findPlayer_isSome_iff, hmemids]
          constructor
          · intro hg
            rcases hg with hg | hg
            · exact hg
            · exact absurd hg hq
          · exact Or.inl
        constructor
        · intro hq2
          obtain ⟨ro, hro, hso⟩ := (hiff q rid).mp hq2
          rw [hr] at hro
          injection hro with hro2
          rw [← hro2] at hso
          exact ⟨room', rfl, hseat.mpr hso⟩
        · rintro ⟨ro, hro, hso⟩
          injection hro with hro2
          rw [← hro2] at hso
          exact (hiff q rid).mpr ⟨room, hr, hseat.mp hso⟩
      · rw [alLookup_alInsert_ne _ hne]
        exact hiff q r

/-! ### Pop-room (idle deletion) preservation -/

theorem foldl_erase_lookup_none {q : String} :
    ∀ (ps : List Player) (m : List (String × String)), alLookup q m = none →
      alLookup q (ps.foldl (fun m p => alErase p.id m) m) = none := by
  intro ps
  induction ps with
  | nil => intro m h; simpa using h
  | cons p rest ih =>
    intro m h
    simp only [List.foldl_cons]
    exact ih _ (alLookup_alErase_none h)

theorem foldl_erase_keys_nodup :
    ∀ (ps : List Player) (m : List (String × String)),
      (m.map Prod.fst).Nodup →
      ((ps.foldl (fun m p => alErase p.id m) m).map Prod.fst).Nodup := by
  intro ps
  induction ps with
  | nil => intro m h; simpa using h
  | cons p rest ih =>
    intro m h
    simp only [List.foldl_cons]
    exact ih _ (nodup_keys_alErase _ h)

theorem foldl_erase_lookup_mem {q : String} :
    ∀ (ps : List Player) (m : List (String × String)),
      (m.map Prod.fst).Nodup → q ∈ ps.map Player.id →
      alLookup q (ps.foldl (fun m p => alErase p.id m) m) = none := by
  intro ps
  induction ps with
  | nil => intro m _ hq; simp at hq
  | cons p rest ih =>
    intro m hnd hq
    simp only [List.foldl_cons]
    by_cases hp : p.id = q
    · apply foldl_erase_lookup_none
      rw [hp]
      exact alLookup_alErase_self hnd
    · rw [List.map_cons, List.mem_cons] at hq
      rcases hq with hq | hq
      · exact absurd hq.symm hp
      · exact ih _ (nodup_keys_alErase _ hnd) hq

theorem foldl_erase_lookup_not_mem {q : String} :
    ∀ (ps : List Player) (m : List (String × String)),
      q ∉ ps.map Player.id →
      alLookup q (ps.foldl (fun m p => alErase p.id m) m) = alLookup q m := by
  intro ps
  induction ps with
  | nil => intro m _; simp
  | cons p rest ih =>
    intro m hq
    have h1 : q ≠ p.id := fun he => hq (by simp [he])
    have h2 : q ∉ rest.map Player.id := fun he => hq (by simp [he])
    simp only [List.foldl_cons]
    rw [ih _ h2, alLookup_alErase_ne h1]

theorem Inv_popRoom {s : RoomManager} {rid : String} {room : GameRoom}
    (h : Inv s) (hr : alLookup rid s.rooms = some room) :
    Inv { rooms := alErase rid s.rooms,
          player_to_room :=
            room.players.foldl (fun m p => alErase p.id m) s.player_to_room } := by
  obtain ⟨hk, hpk, hroom, hiff⟩ := h
  refine ⟨nodup_keys_alErase _ hk, foldl_erase_keys_nodup _ _ hpk, ?_, ?_⟩
  · intro r ro hr2
    by_cases hne : r = rid
    · rw [hne, alLookup_alErase_self hk] at hr2
      cases hr2
    · rw [alLookup_alErase_ne hne] at hr2
      exact hroom r ro hr2
  · intro q r
    by_cases hqm : q ∈ room.players.map Player.id
    · rw [foldl_erase_lookup_mem _ _ hpk hqm]
      constructor
      · intro hf
        cases hf
      · rintro ⟨ro, hro, hso⟩
        by_cases hne : r = rid
        · rw [hne, alLookup_alErase_self hk] at hro
          cases hro
        · rw [alLookup_alErase_ne hne] at hro
          have h1 : alLookup q s.player_to_room = some r :=
            (hiff q r).mpr ⟨ro, hro, hso⟩
          have h2 : alLookup q s.player_to_room = some rid :=
            (hiff q rid).mpr ⟨room, hr, (findPlayer_isSome_iff q room.players).mpr hqm⟩
          rw [h1] at h2
          exact absurd (Option.some.inj h2) hne
    · rw [foldl_erase_lookup_not_mem _ _ hqm]
      constructor
      · intro hq2
        obtain ⟨ro, hro, hso⟩ := (hiff q r).mp hq2
        have hne : r ≠ rid := by
          intro hre
          rw [hre, hr] at hro
          injection hro with hro2
          rw [← hro2] at hso
          exact hqm ((findPlayer_isSome_iff q room.players).mp hso)
        refine ⟨ro, ?_, hso⟩
        rw [alLookup_alErase_ne hne]
        exact hro
      · rintro ⟨ro, hro, hso⟩
        by_cases hne : r = rid
        · rw [hne, alLookup_alErase_self hk] at hro
          cases hro
        · rw [alLookup_alErase_ne hne] at hro
          exact (hiff q r).mpr ⟨ro, hro, hso⟩

theorem deleteRooms_Inv :
    ∀ (dels : List String) (s : RoomManager), Inv s → Inv (deleteRooms dels s) := by
  intro dels
  induction dels with
  | nil => intro s h; exact h
  | cons rid rest ih =>
    intro s h
    cases hl : alLookup rid s.rooms with
    | none =>
      simp only [deleteRooms, hl]
      exact ih _ h
    | some room =>
      simp only [deleteRooms, hl]
      exact ih _ (Inv_popRoom h hl)

/-! ### Sweep preservation -/

theorem removeStale_Inv {s0 : RoomManager} (hInv0 : Inv s0) (rid : String)
    (now : Nat) :
    ∀ (stale : List Player) (s : RoomManager),
      (∀ p ∈ stale, seatedInB s0 p.id rid = true) →
      Inv s →
      (∀ q r, seatedInB s q r = true → seatedInB s0 q r = true) →
      Inv (removeStale rid now stale s) ∧
        (∀ q r, seatedInB (removeStale rid now stale s) q r = true →
          seatedInB s0 q r = true) := by
  intro stale
  induction stale with
  | nil =>
    intro s _ hInv hshr
    exact ⟨hInv, hshr⟩
  | cons p rest ih =>
    intro s hseat hInv hshr
    simp only [removeStale]
    have hout : ∀ r room, r ≠ rid → alLookup r s.rooms = some room →
        findPlayer p.id room.players = none := by
      intro r room hne hr2
      cases hfp : findPlayer p.id room.players with
      | none => rfl
      | some pp =>
        have hseated : seatedInB s p.id r = true :=
          seatedInB_intro hr2 (by rw [hfp]; rfl)
        obtain ⟨ro1, hro1, hso1⟩ := seatedInB_elim (hshr _ _ hseated)
        obtain ⟨ro2, hro2, hso2⟩ := seatedInB_elim (hseat p (by simp))
        exact absurd (seat_unique hInv0 hro1 hso1 hro2 hso2) hne
    have hInv' : Inv (remove_player s rid p.id now).1 := Inv_remove_player hInv hout
    have hshr' : ∀ q r, seatedInB (remove_player s rid p.id now).1 q r = true →
        seatedInB s0 q r = true :=
      fun q r hq => hshr q r (shrink_remove_player hInv.1 hq)
    exact ih _ (fun p2 hp2 => hseat p2 (List.mem_cons_of_mem _ hp2)) hInv' hshr'

theorem sweepStep_Inv {s0 : RoomManager} (hInv0 : Inv s0) (now : Nat)
    {rid : String} {room : GameRoom}
    (hsnap : alLookup rid s0.rooms = some room)
    {s : RoomManager} {dels : List String}
    (hInv : Inv s)
    (hshr : ∀ q r, seatedInB s q r = true → seatedInB s0 q r = true) :
    Inv (sweepStep now rid room s dels).1 ∧
      (∀ q r, seatedInB (sweepStep now rid room s dels).1 q r = true →
        seatedInB s0 q r = true) := by
  unfold sweepStep
  by_cases hidle : room.lastActivityAt + INACTIVE_ROOM_TIMEOUT_SECONDS < now
  · rw [if_pos hidle]
    exact ⟨hInv, hshr⟩
  · rw [if_neg hidle]
    have hstale : ∀ p ∈ room.players.filter (staleAt now),
        seatedInB s0 p.id rid = true := by
      intro p hp
      have hmem : p ∈ room.players := List.mem_of_mem_filter hp
      exact seatedInB_intro hsnap
        ((findPlayer_isSome_iff _ _).mpr (List.mem_map.mpr ⟨p, hmem, rfl⟩))
    exact removeStale_Inv hInv0 rid now _ s hstale hInv hshr

theorem sweepLoop_Inv {s0 : RoomManager} (hInv0 : Inv s0) (now initSize : Nat) :
    ∀ (entries : List (String × GameRoom)) (s : RoomManager) (dels : List String),
      (∀ e ∈ entries, alLookup e.1 s0.rooms = some e.2) →
      Inv s →
      (∀ q r, seatedInB s q r = true → seatedInB s0 q r = true) →
      Inv (sweepLoop now initSize entries s dels).1 := by
  intro entries
  induction entries with
  | nil =>
    intro s dels _ hInv _
    unfold sweepLoop
    by_cases hsz : s.rooms.length = initSize
    · rw [if_pos hsz]
      exact hInv
    · rw [if_neg hsz]
      exact hInv
  | cons e rest ih =>
    obtain ⟨rid, room⟩ := e
    intro s dels hsnap hInv hshr
    unfold sweepLoop
    by_cases hsz : s.rooms.length = initSize
    · rw [if_pos hsz]
      obtain ⟨h1, h2⟩ := sweepStep_Inv hInv0 now
        (hsnap (rid, room) (List.mem_cons_self _ _)) hInv hshr
      exact ih _ _ (fun e2 he2 => hsnap e2 (List.mem_cons_of_mem _ he2)) h1 h2
    · rw [if_neg hsz]
      exact hInv

theorem cleanup_Inv {s : RoomManager} (h : Inv s) (now : Nat) :
    Inv (cleanup_inactive_rooms s now).1 := by
  have hsnap : ∀ e ∈ s.rooms, alLookup e.1 s.rooms = some e.2 :=
    fun e he => alLookup_of_mem_nodup h.1 he
  have hloop := sweepLoop_Inv h now s.rooms.length s.rooms s [] hsnap h
    (fun q r hq => hq)
  unfold cleanup_inactive_rooms
  cases hres : sweepLoop now s.rooms.length s.rooms s [] with
  | mk s' od =>
    rw [hres] at hloop
    cases od with
    | none => exact hloop
    | some dels => exact deleteRooms_Inv dels s' hloop

/-! ### Per-operation invariant preservation -/

theorem Inv_create_op {s : RoomManager} {rid pid pname : String}
    {v : GameVariant} {now : Nat}
    (h : Inv s) (hok : seatedAnywhereB s pid = false) :
    Inv (applyOp s (Op.create rid pid pname v now)) := by
  simp only [applyOp]
  by_cases hfresh : alLookup rid s.rooms = none
  · rw [if_pos hfresh]
    simp only [create_room]
    by_cases hcap : MAX_ROOMS ≤ s.rooms.length
    · rw [if_pos hcap]
      exact h
    · rw [if_neg hcap]
      exact Inv_create_state h hfresh hok rfl
  · rw [if_neg hfresh]
    exact h

theorem Inv_join_op {s : RoomManager} {rid pid pname : String} {now : Nat}
    (h : Inv s)
    (hok : seatedInB s pid rid = true ∨ seatedAnywhereB s pid = false) :
    Inv (applyOp s (Op.join rid pid pname now)) := by
  simp only [applyOp]
  cases hl : alLookup rid s.rooms with
  | none =>
    simp only [join_room, hl]
    exact h
  | some room =>
    cases hfp : findPlayer pid room.players with
    | some p =>
      simp only [join_room, hl, hfp]
      exact Inv_update_room h hl
        (map_id_updateFirstPlayer pid
          (fun p => { p with isConnected := true, disconnectedAt := none, name := pname })
          (fun q => rfl) room.players)
    | none =>
      simp only [join_room, hl, hfp]
      have hnsp : seatedAnywhereB s pid = false := by
        rcases hok with hok | hok
        · obtain ⟨ro, hro, hso⟩ := seatedInB_elim hok
          rw [hl] at hro
          injection hro with hro2
          rw [← hro2, hfp] at hso
          cases hso
        · exact hok
      by_cases hfin : room.status = GameStatus.finished
      · rw [if_pos hfin]
        exact h
      · rw [if_neg hfin]
        by_cases hwait : room.status = GameStatus.waiting
        · rw [if_neg (not_not_intro hwait)]
          by_cases hfull : 2 ≤ room.players.length
          · rw [if_pos hfull]
            exact h
          · rw [if_neg hfull]
            refine Inv_join_fresh_state h hl hnsp (by simp) ?_
            exact Nat.lt_succ_iff.mp (Nat.lt_of_not_le hfull)
        · rw [if_pos hwait]
          exact h

theorem Inv_ready_op {s : RoomManager} {rid pid : String} {rdy : Bool} {now : Nat}
    (h : Inv s) : Inv (applyOp s (Op.ready rid pid rdy now)) := by
  cases hl : alLookup rid s.rooms with
  | none => simpa only [applyOp, set_player_ready, hl] using h
  | some room =>
    cases hfp : findPlayer pid room.players with
    | none => simpa only [applyOp, set_player_ready, hl, hfp] using h
    | some p =>
      simp only [applyOp, set_player_ready, hl, hfp]
      exact Inv_update_room h hl
        (map_id_updateFirstPlayer pid (fun p => { p with isReady := rdy })
          (fun q => rfl) room.players)

theorem Inv_start_op {s : RoomManager} {rid : String} {now : Nat}
    (h : Inv s) : Inv (applyOp s (Op.start rid now)) := by
  by_cases hc : can_start_game s rid = true
  · cases hl : alLookup rid s.rooms with
    | none => simpa only [applyOp, start_game, if_pos hc, hl] using h
    | some room =>
      simp only [applyOp, start_game, if_pos hc, hl]
      exact Inv_update_room h hl rfl
  · simpa only [applyOp, start_game, if_neg hc] using h

theorem Inv_move_op {s : RoomManager} {rid : String} {b : Board}
    {t : PieceColor} {now : Nat}
    (h : Inv s) : Inv (applyOp s (Op.move rid b t now)) := by
  cases hl : alLookup rid s.rooms with
  | none => simpa only [applyOp, update_game_state, hl] using h
  | some room =>
    by_cases hst : room.status ≠ GameStatus.playing
    · simpa only [applyOp, update_game_state, hl, if_pos hst] using h
    · simp only [applyOp, update_game_state, hl, if_neg hst]
      exact Inv_update_room h hl rfl

theorem Inv_finish_op {s : RoomManager} {rid : String} {w : Option PieceColor}
    {now : Nat} (h : Inv s) : Inv (applyOp s (Op.finish rid w now)) := by
  cases hl : alLookup rid s.rooms with
  | none => simpa only [applyOp, end_game, hl] using h
  | some room =>
    simp only [applyOp, end_game, hl]
    exact Inv_update_room h hl rfl

theorem Inv_disc_op {s : RoomManager} {pid : String} {now : Nat}
    (h : Inv s) : Inv (applyOp s (Op.disc pid now)) := by
  cases hl : alLookup pid s.player_to_room with
  | none => simpa only [applyOp, handle_disconnect, hl] using h
  | some rid =>
    cases hl2 : alLookup rid s.rooms with
    | none => simpa only [applyOp, handle_disconnect, hl, hl2] using h
    | some room =>
      cases hfp : findPlayer pid room.players with
      | none => simpa only [applyOp, handle_disconnect, hl, hl2, hfp] using h
      | some p =>
        simp only [applyOp, handle_disconnect, hl, hl2, hfp]
        exact Inv_update_room h hl2
          (map_id_updateFirstPlayer pid
            (fun p => { p with isConnected := false, disconnectedAt := some now })
            (fun q => rfl) room.players)

/-! ### Legal operation sequences -/

/-- The side conditions under which the amended seating invariant is
preserved: a creator is not already seated anywhere (two `createRoom` calls
with one player id violate the invariant — see the counterexample), a joiner
is either reconnecting into its own room or seated nowhere, and
`removePlayer` is not aimed at a room other than the player's own. -/
def opOKB (s : RoomManager) : Op → Bool
  | .create _ pid _ _ _ => !seatedAnywhereB s pid
  | .join rid pid _ _ => seatedInB s pid rid || !seatedAnywhereB s pid
  | .removeP rid pid _ => notSeatedOutsideB s pid rid
  | _ => true

/-- All operations of the sequence satisfy `opOKB` in the state they run in. -/
def legalOpsB : RoomManager → List Op → Bool
  | _, [] => true
  | s, op :: rest => opOKB s op && legalOpsB (applyOp s op) rest

theorem applyOp_Inv {s : RoomManager} {op : Op} (h : Inv s)
    (hok : opOKB s op = true) : Inv (applyOp s op) := by
  cases op with
  | create rid pid pname v now =>
    refine Inv_create_op h ?_
    simpa [opOKB] using hok
  | join rid pid pname now =>
    refine Inv_join_op h ?_
    simpa [opOKB] using hok
  | ready rid pid rdy now => exact Inv_ready_op h
  | start rid now => exact Inv_start_op h
  | move rid b t now => exact Inv_move_op h
  | finish rid w now => exact Inv_finish_op h
  | removeP rid pid now =>
    refine Inv_remove_player h ?_
    intro r room hne hr
    exact notSeatedOutsideB_elim (by simpa [opOKB] using hok) hne hr
  | disc pid now => exact Inv_disc_op h
  | sweep now => exact cleanup_Inv h now

theorem Inv_init : Inv initManager := by
  refine ⟨List.nodup_nil, List.nodup_nil, ?_, ?_⟩
  · intro rid room hr
    simp [initManager, alLookup] at hr
  · intro pid rid
    simp [initManager, alLookup]

theorem runOps_Inv :
    ∀ (ops : List Op) (s : RoomManager), Inv s →
      legalOpsB s ops = true → Inv (runOps s ops) := by
  intro ops
  induction ops with
  | nil =>
    intro s h _
    exact h
  | cons op rest ih =>
    intro s h hleg
    rw [legalOpsB, Bool.and_eq_true] at hleg
    exact ih _ (applyOp_Inv h hleg.1) hleg.2

/-- C1 amended: over every sequence of lifecycle operations in which a
`createRoom` is only issued for a player seated nowhere, a `joinRoom` only
for a player seated nowhere or reconnecting into that same room, and a
`removePlayer(rid, pid)` only when `pid` is not seated in a room other than
`rid` (all of which hold in the intended one-session-per-player flow), the
store satisfies: every live room holds at most 2 seats, no player id is
seated in two live rooms, and `player_to_room` maps `p` to `r` exactly when
room `r` is live and `p` occupies one of its seats.  Without the
side conditions the claim is false — see the double-create counterexample. -/
theorem seating_and_reverse_index_invariant (ops : List Op)
    (h : legalOpsB initManager ops = true) :
    (∀ rid room, alLookup rid (runOps initManager ops).rooms = some room →
      room.players.length ≤ 2) ∧
    (∀ pid r1 r2, seatedInB (runOps initManager ops) pid r1 = true →
      seatedInB (runOps initManager ops) pid r2 = true → r1 = r2) ∧
    (∀ pid rid,
      alLookup pid (runOps initManager ops).player_to_room = some rid ↔
      ∃ room, alLookup rid (runOps initManager ops).rooms = some room ∧
        (findPlayer pid room.players).isSome = true) := by
  have hInv := runOps_Inv ops initManager Inv_init h
  refine ⟨fun rid room hr => (hInv.2.2.1 rid room hr).1, ?_, hInv.2.2.2⟩
  intro pid r1 r2 h1 h2
  obtain ⟨ro1, hr1, hs1⟩ := seatedInB_elim h1
  obtain ⟨ro2, hr2, hs2⟩ := seatedInB_elim h2
  exact seat_unique hInv hr1 hs1 hr2 hs2

/-- The legal operation sequence reaching `playingState`. -/
def playingOps : List Op :=
  [Op.create "ABCDEF" "p1" "Ann" GameVariant.international 0,
   Op.join "ABCDEF" "p2" "Ben" 1,
   Op.ready "ABCDEF" "p1" true 2,
   Op.ready "ABCDEF" "p2" true 3,
   Op.start "ABCDEF" 4]

/-- Witness for `seating_and_reverse_index_invariant` on the standard
create/join/ready/start flow. -/
theorem seating_and_reverse_index_invariant_witness :
    legalOpsB initManager playingOps = true ∧
    ((∀ rid room, alLookup rid (runOps initManager playingOps).rooms = some room →
      room.players.length ≤ 2) ∧
    (∀ pid r1 r2, seatedInB (runOps initManager playingOps) pid r1 = true →
      seatedInB (runOps initManager playingOps) pid r2 = true → r1 = r2) ∧
    (∀ pid rid,
      alLookup pid (runOps initManager playingOps).player_to_room = some rid ↔
      ∃ room, alLookup rid (runOps initManager playingOps).rooms = some room ∧
        (findPlayer pid room.players).isSome = true)) :=
  ⟨by decide, seating_and_reverse_index_invariant playingOps (by decide)⟩

/-! ### C2: status monotonicity -/

/-- Position of a status along Waiting → Playing → Finished. -/
def statusRank : GameStatus → Nat
  | .waiting => 0
  | .playing => 1
  | .finished => 2

/-- Whether the operation is a `startGame`. -/
def isStartOp : Op → Bool
  | .start _ _ => true
  | _ => false

theorem statusRank_le_two (st : GameStatus) : statusRank st ≤ 2 := by
  cases st <;> simp [statusRank]

theorem lookup_both {α : Type} {l : List (String × α)} {k : String} {a b : α}
    (h1 : alLookup k l = some a) (h2 : alLookup k l = some b) : b = a := by
  rw [h1] at h2
  exact (Option.some.inj h2).symm

theorem status_insert_lookup {s : RoomManager} {rid0 rid : String}
    {room0 room0' room room' : GameRoom}
    (hl : alLookup rid0 s.rooms = some room0)
    (hr : alLookup rid s.rooms = some room)
    (hr' : alLookup rid (alInsert rid0 room0' s.rooms) = some room')
    (hst : room0'.status = room0.status) :
    room'.status = room.status := by
  by_cases hne : rid = rid0
  · rw [hne, alLookup_alInsert_self] at hr'
    rw [hne, hl] at hr
    have e1 : room0 = room := Option.some.inj hr
    have e2 : room0' = room' := Option.some.inj hr'
    rw [← e2, hst, e1]
  · rw [alLookup_alInsert_ne _ hne] at hr'
    rw [lookup_both hr hr']

theorem remove_player_status {s : RoomManager} {rid0 pid : String} {now : Nat}
    (hnd : (s.rooms.map Prod.fst).Nodup) {r : String} {room' : GameRoom}
    (h : alLookup r (remove_player s rid0 pid now).1.rooms = some room') :
    ∃ room, alLookup r s.rooms = some room ∧ room'.status = room.status := by
  cases hl : alLookup rid0 s.rooms with
  | none =>
    simp only [remove_player, hl] at h
    exact ⟨room', h, rfl⟩
  | some room0 =>
    by_cases he : (room0.players.filter (fun p => p.id ≠ pid)).length = 0
    · simp only [remove_player, hl, if_pos he] at h
      by_cases hne : r = rid0
      · rw [hne, alLookup_alErase_self hnd] at h
        cases h
      · rw [alLookup_alErase_ne hne] at h
        exact ⟨room', h, rfl⟩
    · simp only [remove_player, hl, if_neg he] at h
      by_cases hne : r = rid0
      · rw [hne, alLookup_alInsert_self] at h
        refine ⟨room0, hne ▸ hl, ?_⟩
        rw [← Option.some.inj h]
      · rw [alLookup_alInsert_ne _ hne] at h
        exact ⟨room', h, rfl⟩

theorem removeStale_status (rid0 : String) (now : Nat) :
    ∀ (stale : List Player) (s : RoomManager),
      (s.rooms.map Prod.fst).Nodup →
      (((removeStale rid0 now stale s).rooms.map Prod.fst).Nodup ∧
      (∀ r room', alLookup r (removeStale rid0 now stale s).rooms = some room' →
        ∃ room, alLookup r s.rooms = some room ∧ room'.status = room.status)) := by
  intro stale
  induction stale with
  | nil =>
    intro s hnd
    exact ⟨hnd, fun r room' h => ⟨room', h, rfl⟩⟩
  | cons p rest ih =>
    intro s hnd
    simp only [removeStale]
    obtain ⟨hnd', hpres⟩ := ih (remove_player s rid0 p.id now).1
      (remove_player_keys_nodup hnd)
    refine ⟨hnd', ?_⟩
    intro r room' h
    obtain ⟨room1, h1, e1⟩ := hpres r room' h
    obtain ⟨room2, h2, e2⟩ := remove_player_status hnd h1
    exact ⟨room2, h2, by rw [e1, e2]⟩

theorem sweepStep_status (now : Nat) (rid0 : String) (room0 : GameRoom)
    (s : RoomManager) (dels : List String)
    (hnd : (s.rooms.map Prod.fst).Nodup) :
    (((sweepStep now rid0 room0 s dels).1.rooms.map Prod.fst).Nodup ∧
    (∀ r room', alLookup r (sweepStep now rid0 room0 s dels).1.rooms = some room' →
      ∃ room, alLookup r s.rooms = some room ∧ room'.status = room.status)) := by
  unfold sweepStep
  by_cases hidle : room0.lastActivityAt + INACTIVE_ROOM_TIMEOUT_SECONDS < now
  · rw [if_pos hidle]
    exact ⟨hnd, fun r room' h => ⟨room', h, rfl⟩⟩
  · rw [if_neg hidle]
    exact removeStale_status rid0 now _ s hnd

theorem sweepLoop_status (now initSize : Nat) :
    ∀ (entries : List (String × GameRoom)) (s : RoomManager) (dels : List String),
      (s.rooms.map Prod.fst).Nodup →
      (((sweepLoop now initSize entries s dels).1.rooms.map Prod.fst).Nodup ∧
      (∀ r room',
        alLookup r (sweepLoop now initSize entries s dels).1.rooms = some room' →
        ∃ room, alLookup r s.rooms = some room ∧ room'.status = room.status)) := by
  intro entries
  induction entries with
  | nil =>
    intro s dels hnd
    unfold sweepLoop
    by_cases hsz : s.rooms.length = initSize
    · rw [if_pos hsz]
      exact ⟨hnd, fun r room' h => ⟨room', h, rfl⟩⟩
    · rw [if_neg hsz]
      exact ⟨hnd, fun r room' h => ⟨room', h, rfl⟩⟩
  | cons e rest ih =>
    obtain ⟨rid0, room0⟩ := e
    intro s dels hnd
    unfold sweepLoop
    by_cases hsz : s.rooms.length = initSize
    · rw [if_pos hsz]
      obtain ⟨hnd1, hpres1⟩ := sweepStep_status now rid0 room0 s dels hnd
      obtain ⟨hnd2, hpres2⟩ := ih (sweepStep now rid0 room0 s dels).1
        (sweepStep now rid0 room0 s dels).2 hnd1
      refine ⟨hnd2, ?_⟩
      intro r room' h
      obtain ⟨room1, h1, e1⟩ := hpres2 r room' h
      obtain ⟨room2, h2, e2⟩ := hpres1 r room1 h1
      exact ⟨room2, h2, by rw [e1, e2]⟩
    · rw [if_neg hsz]
      exact ⟨hnd, fun r room' h => ⟨room', h, rfl⟩⟩

theorem deleteRooms_status :
    ∀ (dels : List String) (s : RoomManager),
      (s.rooms.map Prod.fst).Nodup →
      (((deleteRooms dels s).rooms.map Prod.fst).Nodup ∧
      (∀ r room', alLookup r (deleteRooms dels s).rooms = some room' →
        ∃ room, alLookup r s.rooms = some room ∧ room'.status = room.status)) := by
  intro dels
  induction dels with
  | nil =>
    intro s hnd
    exact ⟨hnd, fun r room' h => ⟨room', h, rfl⟩⟩
  | cons rid0 rest ih =>
    intro s hnd
    cases hl : alLookup rid0 s.rooms with
    | none =>
      simp only [deleteRooms, hl]
      exact ih s hnd
    | some room0 =>
      simp only [deleteRooms, hl]
      obtain ⟨hnd1, hpres1⟩ := ih
        { rooms := alErase rid0 s.rooms,
          player_to_room :=
            room0.players.foldl (fun m p => alErase p.id m) s.player_to_room }
        (nodup_keys_alErase rid0 hnd)
      refine ⟨hnd1, ?_⟩
      intro r room' h
      obtain ⟨room1, h1, e1⟩ := hpres1 r room' h
      by_cases hne : r = rid0
      · rw [hne, alLookup_alErase_self hnd] at h1
        cases h1
      · rw [alLookup_alErase_ne hne] at h1
        exact ⟨room1, h1, e1⟩

theorem cleanup_status {s : RoomManager} (hnd : (s.rooms.map Prod.fst).Nodup)
    (now : Nat) {r : String} {room' : GameRoom}
    (h : alLookup r (cleanup_inactive_rooms s now).1.rooms = some room') :
    ∃ room, alLookup r s.rooms = some room ∧ room'.status = room.status := by
  unfold cleanup_inactive_rooms at h
  obtain ⟨hnd1, hpres1⟩ := sweepLoop_status now s.rooms.length s.rooms s [] hnd
  cases hres : sweepLoop now s.rooms.length s.rooms s [] with
  | mk s' od =>
    rw [hres] at hnd1 hpres1
    cases od with
    | none =>
      rw [hres] at h
      exact hpres1 r room' h
    | some dels =>
      rw [hres] at h
      obtain ⟨room1, h1, e1⟩ := (deleteRooms_status dels s' hnd1).2 r room' h
      obtain ⟨room2, h2, e2⟩ := hpres1 r room1 h1
      exact ⟨room2, h2, by rw [e1, e2]⟩

/-- C2 amended: every lifecycle operation other than `startGame` moves a
room's status only forward along Waiting → Playing → Finished; `startGame`
either leaves a room's status unchanged or sets it to Playing — which is a
regression exactly when it hits a Finished room whose two seats still carry
`isReady = true` (reachable through a duplicate `playerReady` event, since
`can_start_game` never examines the status; see the counterexample). -/
theorem status_only_moves_forward_except_start :
    (∀ (s : RoomManager) (op : Op) (rid : String) (room room' : GameRoom),
      (s.rooms.map Prod.fst).Nodup → isStartOp op = false →
      alLookup rid s.rooms = some room →
      alLookup rid (applyOp s op).rooms = some room' →
      statusRank room.status ≤ statusRank room'.status) ∧
    (∀ (s : RoomManager) (rid0 : String) (now : Nat) (rid : String)
        (room room' : GameRoom),
      alLookup rid s.rooms = some room →
      alLookup rid (applyOp s (Op.start rid0 now)).rooms = some room' →
      room'.status = GameStatus.playing ∨ room'.status = room.status) := by
  constructor
  · intro s op rid room room' hnd hop hr hr'
    cases op with
    | create rid0 pid pname v now =>
      simp only [applyOp] at hr'
      by_cases hfresh : alLookup rid0 s.rooms = none
      · rw [if_pos hfresh] at hr'
        simp only [create_room] at hr'
        by_cases hcap : MAX_ROOMS ≤ s.rooms.length
        · rw [if_pos hcap] at hr'
          exact le_of_eq (by rw [lookup_both hr hr'])
        · rw [if_neg hcap] at hr'
          have hne : rid ≠ rid0 := by
            intro he
            rw [he, hfresh] at hr
            cases hr
          rw [alLookup_alInsert_ne _ hne] at hr'
          exact le_of_eq (by rw [lookup_both hr hr'])
      · rw [if_neg hfresh] at hr'
        exact le_of_eq (by rw [lookup_both hr hr'])
    | join rid0 pid pname now =>
      cases hl : alLookup rid0 s.rooms with
      | none =>
        simp only [applyOp, join_room, hl] at hr'
        exact le_of_eq (by rw [lookup_both hr hr'])
      | some room0 =>
        cases hfp : findPlayer pid room0.players with
        | some p =>
          simp only [applyOp, join_room, hl, hfp] at hr'
          exact le_of_eq (by rw [status_insert_lookup hl hr hr' rfl])
        | none =>
          simp only [applyOp, join_room, hl, hfp] at hr'
          by_cases hfin : room0.status = GameStatus.finished
          · rw [if_pos hfin] at hr'
            exact le_of_eq (by rw [lookup_both hr hr'])
          · rw [if_neg hfin] at hr'
            by_cases hwait : room0.status = GameStatus.waiting
            · rw [if_neg (not_not_intro hwait)] at hr'
              by_cases hfull : 2 ≤ room0.players.length
              · rw [if_pos hfull] at hr'
                exact le_of_eq (by rw [lookup_both hr hr'])
              · rw [if_neg hfull] at hr'
                exact le_of_eq (by rw [status_insert_lookup hl hr hr' rfl])
            · rw [if_pos hwait] at hr'
              exact le_of_eq (by rw [lookup_both hr hr'])
    | ready rid0 pid rdy now =>
      cases hl : alLookup rid0 s.rooms with
      | none =>
        simp only [applyOp, set_player_ready, hl] at hr'
        exact le_of_eq (by rw [lookup_both hr hr'])
      | some room0 =>
        cases hfp : findPlayer pid room0.players with
        | none =>
          simp only [applyOp, set_player_ready, hl, hfp] at hr'
          exact le_of_eq (by rw [lookup_both hr hr'])
        | some p =>
          simp only [applyOp, set_player_ready, hl, hfp] at hr'
          exact le_of_eq (by rw [status_insert_lookup hl hr hr' rfl])
    | start rid0 now =>
      simp [isStartOp] at hop
    | move rid0 b t now =>
      cases hl : alLookup rid0 s.rooms with
      | none =>
        simp only [applyOp, update_game_state, hl] at hr'
        exact le_of_eq (by rw [lookup_both hr hr'])
      | some room0 =>
        by_cases hst : room0.status ≠ GameStatus.playing
        · simp only [applyOp, update_game_state, hl, if_pos hst] at hr'
          exact le_of_eq (by rw [lookup_both hr hr'])
        · simp only [applyOp, update_game_state, hl, if_neg hst] at hr'
          exact le_of_eq (by rw [status_insert_lookup hl hr hr' rfl])
    | finish rid0 w now =>
      cases hl : alLookup rid0 s.rooms with
      | none =>
        simp only [applyOp, end_game, hl] at hr'
        exact le_of_eq (by rw [lookup_both hr hr'])
      | some room0 =>
        simp only [applyOp, end_game, hl] at hr'
        by_cases hne : rid = rid0
        · rw [hne, alLookup_alInsert_self] at hr'
          rw [← Option.some.inj hr']
          exact statusRank_le_two _
        · rw [alLookup_alInsert_ne _ hne] at hr'
          exact le_of_eq (by rw [lookup_both hr hr'])
    | removeP rid0 pid now =>
      simp only [applyOp] at hr'
      obtain ⟨room2, h2, e2⟩ := remove_player_status hnd hr'
      exact le_of_eq (by rw [e2, lookup_both hr h2])
    | disc pid now =>
      cases hl : alLookup pid s.player_to_room with
      | none =>
        simp only [applyOp, handle_disconnect, hl] at hr'
        exact le_of_eq (by rw [lookup_both hr hr'])
      | some rid1 =>
        cases hl2 : alLookup rid1 s.rooms with
        | none =>
          simp only [applyOp, handle_disconnect, hl, hl2] at hr'
          exact le_of_eq (by rw [lookup_both hr hr'])
        | some room1 =>
          cases hfp : findPlayer pid room1.players with
          | none =>
            simp only [applyOp, handle_disconnect, hl, hl2, hfp] at hr'
            exact le_of_eq (by rw [lookup_both hr hr'])
          | some p =>
            simp only [applyOp, handle_disconnect, hl, hl2, hfp] at hr'
            exact le_of_eq (by rw [status_insert_lookup hl2 hr hr' rfl])
    | sweep now =>
      simp only [applyOp] at hr'
      obtain ⟨room2, h2, e2⟩ := cleanup_status hnd now hr'
      exact le_of_eq (by rw [e2, lookup_both hr h2])
  · intro s rid0 now rid room room' hr hr'
    simp only [applyOp, start_game] at hr'
    by_cases hc : can_start_game s rid0 = true
    · rw [if_pos hc] at hr'
      cases hl : alLookup rid0 s.rooms with
      | none =>
        simp only [hl] at hr'
        right
        rw [lookup_both hr hr']
      | some room0 =>
        simp only [hl] at hr'
        by_cases hne : rid = rid0
        · rw [hne, alLookup_alInsert_self] at hr'
          left
          rw [← Option.some.inj hr']
        · rw [alLookup_alInsert_ne _ hne] at hr'
          right
          rw [lookup_both hr hr']
    · rw [if_neg hc] at hr'
      right
      rw [lookup_both hr hr']

/-- Witness for `status_only_moves_forward_except_start`: `endGame` on the
fresh Waiting room moves the status forward, and `startGame` on it leaves it
unchanged (two seats are not ready). -/
theorem status_only_moves_forward_except_start_witness :
    (waitingRoomState.rooms.map Prod.fst).Nodup ∧
    isStartOp (Op.finish "ABCDEF" none 9) = false ∧
    alLookup "ABCDEF" waitingRoomState.rooms = some creatorRoom ∧
    alLookup "ABCDEF" (applyOp waitingRoomState (Op.finish "ABCDEF" none 9)).rooms
      = some (endedRoom creatorRoom none 9) ∧
    statusRank creatorRoom.status ≤
      statusRank (endedRoom creatorRoom none 9).status := by
  refine ⟨by decide, by decide, by decide, by decide, ?_⟩
  exact status_only_moves_forward_except_start.1 waitingRoomState
    (Op.finish "ABCDEF" none 9) "ABCDEF" creatorRoom (endedRoom creatorRoom none 9)
    (by decide) (by decide) (by decide) (by decide)

/-! ### C7: idle-room deletion on a completed sweep -/

theorem removeStale_lookup_ne (rid0 : String) (now : Nat) {r : String}
    (hne : r ≠ rid0) :
    ∀ (stale : List Player) (s : RoomManager),
      alLookup r (removeStale rid0 now stale s).rooms = alLookup r s.rooms := by
  intro stale
  induction stale with
  | nil => intro s; rfl
  | cons p rest ih =>
    intro s
    simp only [removeStale]
    rw [ih]
    exact remove_player_rooms_lookup_ne hne

theorem removeStale_ptr_nodup (rid0 : String) (now : Nat) :
    ∀ (stale : List Player) (s : RoomManager),
      (s.player_to_room.map Prod.fst).Nodup →
      ((removeStale rid0 now stale s).player_to_room.map Prod.fst).Nodup := by
  intro stale
  induction stale with
  | nil => intro s h; exact h
  | cons p rest ih =>
    intro s h
    simp only [removeStale]
    exact ih _ (remove_player_ptr_keys_nodup h)

theorem sweepStep_facts (now : Nat) (rid0 : String) (room0 : GameRoom)
    (s : RoomManager) (dels : List String) (rid : String) (room : GameRoom)
    (hlook : alLookup rid s.rooms = some room)
    (hknd : (s.rooms.map Prod.fst).Nodup)
    (hpnd : (s.player_to_room.map Prod.fst).Nodup)
    (hcase : rid0 = rid →
      room.lastActivityAt + INACTIVE_ROOM_TIMEOUT_SECONDS < now ∧ room0 = room) :
    alLookup rid (sweepStep now rid0 room0 s dels).1.rooms = some room ∧
    ((sweepStep now rid0 room0 s dels).1.rooms.map Prod.fst).Nodup ∧
    ((sweepStep now rid0 room0 s dels).1.player_to_room.map Prod.fst).Nodup ∧
    (∀ x, x ∈ dels → x ∈ (sweepStep now rid0 room0 s dels).2) ∧
    (rid0 = rid → rid ∈ (sweepStep now rid0 room0 s dels).2) := by
  by_cases hidle0 : room0.lastActivityAt + INACTIVE_ROOM_TIMEOUT_SECONDS < now
  · have hstep : sweepStep now rid0 room0 s dels = (s, dels ++ [rid0]) := by
      unfold sweepStep
      rw [if_pos hidle0]
    rw [hstep]
    refine ⟨hlook, hknd, hpnd, ?_, ?_⟩
    · intro x hx
      exact List.mem_append.mpr (Or.inl hx)
    · intro he
      exact List.mem_append.mpr (Or.inr (by simp [he]))
  · have hne : rid0 ≠ rid := by
      intro he
      obtain ⟨hi, he2⟩ := hcase he
      rw [he2] at hidle0
      exact hidle0 hi
    have hstep1 : (sweepStep now rid0 room0 s dels).1 =
        removeStale rid0 now (room0.players.filter (staleAt now)) s := by
      unfold sweepStep
      rw [if_neg hidle0]
    refine ⟨?_, ?_, ?_, ?_, ?_⟩
    · rw [hstep1, removeStale_lookup_ne rid0 now (Ne.symm hne)]
      exact hlook
    · rw [hstep1]
      exact (removeStale_status rid0 now _ s hknd).1
    · rw [hstep1]
      exact removeStale_ptr_nodup rid0 now _ s hpnd
    · intro x hx
      unfold sweepStep
      rw [if_neg hidle0]
      by_cases hemp : (match alLookup rid0 (removeStale rid0 now
          (room0.players.filter (staleAt now)) s).rooms with
        | some r => r.players.isEmpty
        | none => true) = true
      · simp only [hemp, if_true]
        exact List.mem_append.mpr (Or.inl hx)
      · simp only [hemp, if_false]
        exact hx
    · intro he
      exact absurd he hne

theorem sweepLoop_idle_facts (now initSize : Nat) (rid : String) (room : GameRoom)
    (hidle : room.lastActivityAt + INACTIVE_ROOM_TIMEOUT_SECONDS < now) :
    ∀ (entries : List (String × GameRoom)) (s : RoomManager) (dels : List String)
      (s' : RoomManager) (dels' : List String),
      sweepLoop now initSize entries s dels = (s', some dels') →
      (∀ e ∈ entries, e.1 = rid → e.2 = room) →
      alLookup rid s.rooms = some room →
      (s.rooms.map Prod.fst).Nodup →
      (s.player_to_room.map Prod.fst).Nodup →
      (rid ∈ dels ∨ ∃ e ∈ entries, e.1 = rid) →
      alLookup rid s'.rooms = some room ∧ rid ∈ dels' ∧
        (s'.rooms.map Prod.fst).Nodup ∧
        (s'.player_to_room.map Prod.fst).Nodup := by
  intro entries
  induction entries with
  | nil =>
    intro s dels s' dels' hres _ hlook hknd hpnd hin
    unfold sweepLoop at hres
    by_cases hsz : s.rooms.length = initSize
    · rw [if_pos hsz, Prod.mk.injEq] at hres
      obtain ⟨h1, h2⟩ := hres
      rw [← h1]
      refine ⟨hlook, ?_, hknd, hpnd⟩
      rcases hin with hin | ⟨e, he, _⟩
      · rw [← Option.some.inj h2]
        exact hin
      · cases he
    · rw [if_neg hsz, Prod.mk.injEq] at hres
      cases hres.2
  | cons e rest ih =>
    obtain ⟨rid0, room0⟩ := e
    intro s dels s' dels' hres hsnap hlook hknd hpnd hin
    unfold sweepLoop at hres
    by_cases hsz : s.rooms.length = initSize
    · rw [if_pos hsz] at hres
      replace hres : sweepLoop now initSize rest
          (sweepStep now rid0 room0 s dels).1
          (sweepStep now rid0 room0 s dels).2 = (s', some dels') := hres
      have hcase : rid0 = rid →
          room.lastActivityAt + INACTIVE_ROOM_TIMEOUT_SECONDS < now ∧
            room0 = room := by
        intro he
        exact ⟨hidle, hsnap (rid0, room0) (List.mem_cons_self _ _) he⟩
      obtain ⟨f1, f2, f3, f4, f5⟩ :=
        sweepStep_facts now rid0 room0 s dels rid room hlook hknd hpnd hcase
      refine ih _ _ _ _ hres
        (fun e2 he2 => hsnap e2 (List.mem_cons_of_mem _ he2)) f1 f2 f3 ?_
      rcases hin with hin | ⟨e2, he2, he2r⟩
      · exact Or.inl (f4 _ hin)
      · rcases List.mem_cons.mp he2 with he3 | he3
        · refine Or.inl (f5 ?_)
          rw [he3] at he2r
          exact he2r
        · exact Or.inr ⟨e2, he3, he2r⟩
    · rw [if_neg hsz, Prod.mk.injEq] at hres
      cases hres.2

theorem deleteRooms_rooms_none {r : String} :
    ∀ (dels : List String) (s : RoomManager), alLookup r s.rooms = none →
      alLookup r (deleteRooms dels s).rooms = none := by
  intro dels
  induction dels with
  | nil => intro s h; exact h
  | cons rid0 rest ih =>
    intro s h
    cases hl : alLookup rid0 s.rooms with
    | none =>
      simp only [deleteRooms, hl]
      exact ih s h
    | some room0 =>
      simp only [deleteRooms, hl]
      exact ih _ (alLookup_alErase_none h)

theorem deleteRooms_ptr_none {q : String} :
    ∀ (dels : List String) (s : RoomManager),
      alLookup q s.player_to_room = none →
      alLookup q (deleteRooms dels s).player_to_room = none := by
  intro dels
  induction dels with
  | nil => intro s h; exact h
  | cons rid0 rest ih =>
    intro s h
    cases hl : alLookup rid0 s.rooms with
    | none =>
      simp only [deleteRooms, hl]
      exact ih s h
    | some room0 =>
      simp only [deleteRooms, hl]
      exact ih _ (foldl_erase_lookup_none _ _ h)

theorem deleteRooms_idle_final (rid : String) (room : GameRoom) :
    ∀ (dels : List String) (s : RoomManager),
      (s.rooms.map Prod.fst).Nodup →
      (s.player_to_room.map Prod.fst).Nodup →
      rid ∈ dels → alLookup rid s.rooms = some room →
      alLookup rid (deleteRooms dels s).rooms = none ∧
      ∀ p ∈ room.players,
        alLookup p.id (deleteRooms dels s).player_to_room = none := by
  intro dels
  induction dels with
  | nil =>
    intro s _ _ hmem _
    cases hmem
  | cons rid0 rest ih =>
    intro s hknd hpnd hmem hlook
    by_cases h0 : rid0 = rid
    · have hl : alLookup rid0 s.rooms = some room := by
        rw [h0]
        exact hlook
      simp only [deleteRooms, hl]
      constructor
      · apply deleteRooms_rooms_none
        show alLookup rid (alErase rid0 s.rooms) = none
        rw [h0]
        exact alLookup_alErase_self hknd
      · intro p hp
        apply deleteRooms_ptr_none
        exact foldl_erase_lookup_mem room.players _ hpnd
          (List.mem_map.mpr ⟨p, hp, rfl⟩)
    · have hmem' : rid ∈ rest := by
        rcases List.mem_cons.mp hmem with he | he
        · exact absurd he.symm h0
        · exact he
      cases hl : alLookup rid0 s.rooms with
      | none =>
        simp only [deleteRooms, hl]
        exact ih s hknd hpnd hmem' hlook
      | some room0 =>
        simp only [deleteRooms, hl]
        refine ih _ (nodup_keys_alErase _ hknd)
          (foldl_erase_keys_nodup _ _ hpnd) hmem' ?_
        show alLookup rid (alErase rid0 s.rooms) = some room
        rw [alLookup_alErase_ne (fun he => h0 he.symm)]
        exact hlook

/-- C7 amended: whenever a janitor sweep completes (returns a count rather
than raising the mid-iteration `RuntimeError` — see the stranded-idle-room
counterexample), every room whose `lastActivityAt` is older than the idle
threshold at sweep time is deleted from the store and every one of its
seated players' reverse-index entries is removed. -/
theorem janitor_deletes_idle_rooms_when_sweep_completes
    (s : RoomManager) (now n : Nat) (rid : String) (room : GameRoom)
    (hknd : (s.rooms.map Prod.fst).Nodup)
    (hpnd : (s.player_to_room.map Prod.fst).Nodup)
    (hdone : (cleanup_inactive_rooms s now).2 = some n)
    (hr : alLookup rid s.rooms = some room)
    (hidle : room.lastActivityAt + INACTIVE_ROOM_TIMEOUT_SECONDS < now) :
    alLookup rid (cleanup_inactive_rooms s now).1.rooms = none ∧
    ∀ p ∈ room.players,
      alLookup p.id (cleanup_inactive_rooms s now).1.player_to_room = none := by
  unfold cleanup_inactive_rooms at hdone ⊢
  cases hres : sweepLoop now s.rooms.length s.rooms s [] with
  | mk s1 od =>
    rw [hres] at hdone
    cases od with
    | none => cases hdone
    | some dels =>
      have hsnap : ∀ e ∈ s.rooms, e.1 = rid → e.2 = room := by
        intro e he h1
        have h2 := alLookup_of_mem_nodup hknd he
        rw [h1, hr] at h2
        exact (Option.some.inj h2).symm
      obtain ⟨hlook', hmem', hknd', hpnd'⟩ :=
        sweepLoop_idle_facts now s.rooms.length rid room hidle s.rooms s [] s1
          dels hres hsnap hr hknd hpnd
          (Or.inr ⟨(rid, room), mem_of_alLookup hr, rfl⟩)
      exact deleteRooms_idle_final rid room dels s1 hknd' hpnd' hmem' hlook'

/-- A store holding one idle room, as the janitor finds it at time 10000. -/
def idleOnlyState : RoomManager :=
  { rooms := [("GHJKLM", idleRoom)], player_to_room := [("p2", "GHJKLM")] }

/-- Witness for `janitor_deletes_idle_rooms_when_sweep_completes`: a sweep
over a single idle room completes with count 1 and removes the room and its
player's reverse entry. -/
theorem janitor_deletes_idle_rooms_when_sweep_completes_witness :
    (cleanup_inactive_rooms idleOnlyState 10000).2 = some 1 ∧
    alLookup "GHJKLM" idleOnlyState.rooms = some idleRoom ∧
    idleRoom.lastActivityAt + INACTIVE_ROOM_TIMEOUT_SECONDS < 10000 ∧
    (alLookup "GHJKLM" (cleanup_inactive_rooms idleOnlyState 10000).1.rooms = none ∧
    ∀ p ∈ idleRoom.players,
      alLookup p.id (cleanup_inactive_rooms idleOnlyState 10000).1.player_to_room
        = none) := by
  refine ⟨by decide, by decide, by decide, ?_⟩
  exact janitor_deletes_idle_rooms_when_sweep_completes idleOnlyState 10000 1
    "GHJKLM" idleRoom (by decide) (by decide) (by decide) (by decide) (by decide)

end DraughtsPro
